import Mathlib

/-!
# Space-invaders client (`hw4/Assign4_ForStudents/spaceInvadersClient.cpp`)

A shallow embedding of the protocol-relevant functions of the client:
`rio_read`, `attendToUser`, `handleWholeBoard`, `handleInvaderKilled`,
`attendToServer` and `ServerCommInfo::didParse`, followed by theorems about
them.

Conventions.
* A byte is a `Nat` below 256; a buffer is a `List Nat`.
* `short`, `int` and `ssize_t` values are `Int`; a conversion to `short` is the
  explicit two's-complement wrap `toShort`.
* The operating system is a script: the list of outcomes of the successive
  `read` calls, or the list of keys returned by the successive `getch` calls.
  A script that runs out before the code has finished stands for a call that
  is still blocked, and the embedded function returns `none`.
* `headers.h` is not part of the repository sources.  Its constants and its
  two position functions are the fields of the structure `Headers`, over which
  every definition that needs them is parameterised.
-/

namespace SpaceInvaders

/-! ## `rio_read` -/

/-- Value of `EINTR` in `<errno.h>` (Linux). -/
def EINTR : Nat := 4

/-- Value of `EAGAIN` in `<errno.h>` (Linux). -/
def EAGAIN : Nat := 11

/-- What the operating system has for one call of `read`: either bytes that
have arrived on the stream (`data []` is end of file: the peer closed), or a
failure with the `errno` it sets. -/
inductive ReadOutcome where
  | data (bs : List Nat)
  | fail (errno : Nat)
  deriving DecidableEq, Repr

/-- Result of one `read(fd, bufp, nleft)` call: the returned count, the bytes
stored at `bufp`, the value of `errno` afterwards, and the bytes that had
arrived but did not fit in the request (they stay queued on the stream). -/
structure ReadResult where
  nread : Int
  bytes : List Nat
  errno : Nat
  queued : List Nat
  deriving DecidableEq, Repr

/-- The system call `read(fd, bufp, nleft)`: it delivers at most `nleft` bytes;
a failure returns `-1` and sets `errno`. -/
def read (o : ReadOutcome) (nleft : Nat) (errno : Nat) : ReadResult :=
  match o with
  | .data bs => ⟨((bs.take nleft).length : Int), bs.take nleft, errno, bs.drop nleft⟩
  | .fail e => ⟨-1, [], e, []⟩

/-- Store `bs` into `buf` starting at offset `off` (what `read` does through
the pointer `bufp`). -/
def writeBytes (buf : List Nat) (off : Nat) (bs : List Nat) : List Nat :=
  buf.take off ++ bs ++ buf.drop (off + bs.length)

/-- Put the bytes a `read` left queued back in front of the remaining script. -/
def requeue (queued : List Nat) (rest : List ReadOutcome) : List ReadOutcome :=
  if queued = [] then rest else ReadOutcome.data queued :: rest

/-- What `rio_read` leaves behind: its return value, the buffer `usrbuf`, the
value of `errno`, the byte counts it asked of `read` (in call order), and the
outcomes it did not consume. -/
structure RioResult where
  ret : Int
  buf : List Nat
  errno : Nat
  requests : List Nat
  rest : List ReadOutcome
  deriving DecidableEq, Repr

/-- The `while (nleft > 0)` loop of `rio_read`.  `bufp` is the offset of the
pointer `bufp` from `usrbuf`.  The loop test after a `read` that filled the
request is evaluated in place (`nleft - nread = 0` leaves the loop), so that
the recursion is on the script. -/
def rio_loop (n : Nat) : List ReadOutcome → Nat → Nat → List Nat → Nat → List Nat →
    Option RioResult
  | script, 0, _, buf, errno, log => some ⟨(n : Int) - 0, buf, errno, log, script⟩
  | [], _ + 1, _, _, _, _ => none
  | o :: rest, nleft + 1, bufp, buf, errno, log =>
      let r := read o (nleft + 1) errno
      if r.nread < 0 then
        if r.errno = EINTR then
          -- nread = 0; nleft -= nread; bufp += nread
          rio_loop n rest (nleft + 1 - 0) (bufp + 0) buf r.errno (log ++ [nleft + 1])
        else
          some ⟨-1, buf, r.errno, log ++ [nleft + 1], rest⟩
      else if r.nread = 0 then
        -- break
        some ⟨(n : Int) - ((nleft + 1 : Nat) : Int), buf, r.errno, log ++ [nleft + 1],
          requeue r.queued rest⟩
      else if nleft + 1 - r.nread.toNat = 0 then
        some ⟨(n : Int) - ((nleft + 1 - r.nread.toNat : Nat) : Int),
          writeBytes buf bufp r.bytes, r.errno, log ++ [nleft + 1], requeue r.queued rest⟩
      else
        rio_loop n rest (nleft + 1 - r.nread.toNat) (bufp + r.nread.toNat)
          (writeBytes buf bufp r.bytes) r.errno (log ++ [nleft + 1])

/-- `ssize_t rio_read(int fd, char* usrbuf, size_t n)`: `script` is what the
successive `read` calls on `fd` meet, `errno` the value of `errno` on entry. -/
def rio_read (script : List ReadOutcome) (usrbuf : List Nat) (n : Nat) (errno : Nat) :
    Option RioResult :=
  rio_loop n script n 0 usrbuf errno []

/-! ## Constants and functions of `headers.h` -/

/-- The constants and the two position functions that the client takes from
`headers.h`, a file that is not among the repository sources.  Counts are
natural numbers (they are loop bounds of `short` counters and are taken to fit
a `short`), `int` constants are integers, update tags are byte values. -/
structure Headers where
  C_STRING_MAX : Nat
  INITIAL_HOST : List Char
  INITIAL_PORT : Int
  QUIT_CHAR : Int
  LEFT_REQUEST : Nat
  RIGHT_REQUEST : Nat
  SHOOT_REQUEST : Nat
  DISCONNECT_REQUEST : Nat
  MAX_UPDATE_LEN : Nat
  NUM_INVADER_RANKS : Nat
  NUM_INVADERS_PER_RANK : Nat
  NUM_INVADER_FRAMES : Nat
  MAX_NUM_INVADER_BULLETS : Nat
  ILLEGAL_ROW : Int
  ILLEGAL_COL : Int
  defenderRow : Int
  INIIAL_BOTTOMMOST_INVADER_RANK_ROW : Int
  CONNECTION_DENIED_UPDATE : Nat
  DISCONNECT_UPDATE : Nat
  BEEP_UPDATE : Nat
  BEGIN_WHOLE_BOARD_UPDATE : Nat
  HAVE_WON_UPDATE : Nat
  DEFENDER_KILLED_UPDATE : Nat
  INVADER_KILLED_UPDATE : Nat
  ERROR_UPDATE : Nat
  getInvaderRowGivenRankAndBottommostRankRow : Int → Int → Int
  getInvadersLeftmostColGivenFileAndLeftmostCol : Int → Int → Int

/-- Modelled from the spec: `REQUEST_LENGTH` of `headers.h`, the size of an
outbound command frame ("fixed 2-byte frame"; `request_t` is a `short`). -/
def REQUEST_LENGTH : Nat := 2

/-- Modelled from the spec: `SIZE16` of `headers.h`, the size in bytes of a
16-bit field of an update. -/
def SIZE16 : Nat := 2

/-- Modelled from the spec: `SIZE32` of `headers.h`, the size in bytes of a
32-bit field of an update. -/
def SIZE32 : Nat := 4

/-- One choice of the constants of `headers.h`, for evaluating the definitions
on concrete inputs.  The tags `'w'`, `'K'` and `'k'` are the ones the comments
of the client give for the whole-board, defender-hit and invader-killed
updates; the other values are illustrative. -/
def exampleHeaders : Headers where
  C_STRING_MAX := 256
  INITIAL_HOST := "localhost.localdomain".toList
  INITIAL_PORT := 20000
  QUIT_CHAR := 27
  LEFT_REQUEST := 0x6c6c
  RIGHT_REQUEST := 0x7272
  SHOOT_REQUEST := 0x7373
  DISCONNECT_REQUEST := 0x6464
  MAX_UPDATE_LEN := 48
  NUM_INVADER_RANKS := 2
  NUM_INVADERS_PER_RANK := 4
  NUM_INVADER_FRAMES := 4
  MAX_NUM_INVADER_BULLETS := 2
  ILLEGAL_ROW := -1
  ILLEGAL_COL := -1
  defenderRow := 22
  INIIAL_BOTTOMMOST_INVADER_RANK_ROW := 8
  CONNECTION_DENIED_UPDATE := 67
  DISCONNECT_UPDATE := 68
  BEEP_UPDATE := 66
  BEGIN_WHOLE_BOARD_UPDATE := 119
  HAVE_WON_UPDATE := 87
  DEFENDER_KILLED_UPDATE := 75
  INVADER_KILLED_UPDATE := 107
  ERROR_UPDATE := 69
  getInvaderRowGivenRankAndBottommostRankRow := fun rank bottom => bottom - (1 - rank)
  getInvadersLeftmostColGivenFileAndLeftmostCol := fun file left => left + 4 * file

/-! ## Integer conversions and byte order -/

/-- Conversion of an integer to `short`: two's-complement wrap to 16 bits. -/
def toShort (v : Int) : Int := (v + 32768) % 65536 - 32768

/-- Conversion of an integer to `int`: two's-complement wrap to 32 bits. -/
def toInt32 (v : Int) : Int := (v + 2147483648) % 4294967296 - 2147483648

/-- The byte (8 bits) stored at offset `i` of a buffer. -/
def byteAt (buf : List Nat) (i : Nat) : Nat := buf.getD i 0 % 256

/-- The two bytes that a 16-bit value occupies in the memory of the host, in
address order; `le` tells whether the host is little-endian. -/
def store16 (le : Bool) (v : Nat) : List Nat :=
  if le then [v % 256, v / 256 % 256] else [v / 256 % 256, v % 256]

/-- The 16-bit value `*(short*)(buf + off)` read by the host, as an unsigned
number. -/
def load16 (le : Bool) (buf : List Nat) (off : Nat) : Nat :=
  if le then byteAt buf off + 256 * byteAt buf (off + 1)
  else 256 * byteAt buf off + byteAt buf (off + 1)

/-- The 32-bit value `*(int*)(buf + off)` read by the host, as an unsigned
number. -/
def load32 (le : Bool) (buf : List Nat) (off : Nat) : Nat :=
  if le then
    byteAt buf off + 256 * byteAt buf (off + 1) + 65536 * byteAt buf (off + 2)
      + 16777216 * byteAt buf (off + 3)
  else
    16777216 * byteAt buf off + 65536 * byteAt buf (off + 1) + 256 * byteAt buf (off + 2)
      + byteAt buf (off + 3)

/-- Exchange of the two bytes of a 16-bit value. -/
def bswap16 (v : Nat) : Nat := v % 256 * 256 + v / 256 % 256

/-- Reversal of the four bytes of a 32-bit value. -/
def bswap32 (v : Nat) : Nat :=
  v % 256 * 16777216 + v / 256 % 256 * 65536 + v / 65536 % 256 * 256 + v / 16777216 % 256

/-- `htons`: host to network (big-endian) order, on a `uint16_t`. -/
def htons (le : Bool) (v : Nat) : Nat := if le then bswap16 v else v % 65536

/-- `ntohs`: network (big-endian) to host order, on a `uint16_t`. -/
def ntohs (le : Bool) (v : Nat) : Nat := if le then bswap16 v else v % 65536

/-- `ntohl`: network (big-endian) to host order, on a `uint32_t`. -/
def ntohl (le : Bool) (v : Nat) : Nat := if le then bswap32 v else v % 4294967296

/-! ## `attendToUser` -/

/-- Value of `ERR` in `<curses.h>`: what `getch` returns on a timeout. -/
def ERR : Int := -1

/-- Value of `KEY_LEFT` in `<curses.h>` (octal 0404). -/
def KEY_LEFT : Int := 260

/-- Value of `KEY_RIGHT` in `<curses.h>` (octal 0405). -/
def KEY_RIGHT : Int := 261

/-- One iteration's input of `attendToUser`: the key `getch` returns and the
value the global `shouldContinueGame` has when the iteration tests it. -/
structure KeyEvent where
  key : Int
  shouldContinueGame : Bool
  deriving DecidableEq, Repr

/-- What `attendToUser` has done when it returns: the byte sequences it passed
to `write(connectFD, ...)`, in order, the number of `beep()` calls, and the
key events it did not read. -/
structure UserRun where
  writes : List (List Nat)
  beeps : Nat
  unread : List KeyEvent
  deriving DecidableEq, Repr

/-- The statement pair `request = htons(code); write(connectFD,&request,REQUEST_LENGTH);`:
the bytes handed to `write`. -/
def sendRequest (le : Bool) (code : Nat) : List Nat :=
  (store16 le (htons le code)).take REQUEST_LENGTH

/-- Part II.B of `attendToUser`: tell the server about a disconnect request,
if one was made. -/
def attendToUser_finish (H : Headers) (le : Bool) (key : Int) (writes : List (List Nat))
    (beeps : Nat) (unread : List KeyEvent) : UserRun :=
  if key = H.QUIT_CHAR then
    ⟨writes ++ [sendRequest le H.DISCONNECT_REQUEST], beeps, unread⟩
  else
    ⟨writes, beeps, unread⟩

/-- The `while ((key = getch()) != QUIT_CHAR)` loop of `attendToUser`, followed
by part II.B. -/
def attendToUser_loop (H : Headers) (le : Bool) :
    List KeyEvent → List (List Nat) → Nat → Option UserRun
  | [], _, _ => none
  | e :: rest, writes, beeps =>
      if e.key ≠ H.QUIT_CHAR then
        if !e.shouldContinueGame then
          some (attendToUser_finish H le e.key writes beeps rest)
        else if e.key = ERR then
          attendToUser_loop H le rest writes beeps
        else if e.key = KEY_LEFT then
          attendToUser_loop H le rest (writes ++ [sendRequest le H.LEFT_REQUEST]) beeps
        else if e.key = KEY_RIGHT then
          attendToUser_loop H le rest (writes ++ [sendRequest le H.RIGHT_REQUEST]) beeps
        else if e.key = 10 then          -- case '\n'
          attendToUser_loop H le rest (writes ++ [sendRequest le H.SHOOT_REQUEST]) beeps
        else if e.key = 32 then          -- case ' '
          attendToUser_loop H le rest (writes ++ [sendRequest le H.SHOOT_REQUEST]) beeps
        else
          attendToUser_loop H le rest writes (beeps + 1)
      else
        some (attendToUser_finish H le e.key writes beeps rest)

/-- `void* attendToUser(void* vPtr)`: `events` is what the successive `getch`
calls and tests of `shouldContinueGame` meet. -/
def attendToUser (H : Headers) (le : Bool) (events : List KeyEvent) : Option UserRun :=
  attendToUser_loop H le events [] 0

/-! ## Display calls -/

/-- The calls the client makes on the display (ncurses), as values: each
constructor is one group of calls of the source, with the position and data it
is made with. -/
inductive Event where
  /-- `wclear(mainWindowPtr)` -/
  | clearMain
  /-- `wmove(mainWindowPtr,row,col); waddstr(mainWindowPtr,liveInvader[frame])` -/
  | liveInvader (row col : Int) (frame : Nat)
  /-- `wmove(mainWindowPtr,row,col); waddch(mainWindowPtr,'*')` -/
  | invaderBullet (row col : Int)
  /-- `wmove(mainWindowPtr,defenderRow,col); waddstr(mainWindowPtr,defender)` -/
  | defender (row col : Int)
  /-- `wmove(mainWindowPtr,row,col); waddch(mainWindowPtr,'|')` -/
  | defenderBullet (row col : Int)
  /-- the text "Ouch count: %d" written at 0,0 -/
  | ouchCount (count : Int)
  /-- `wrefresh(mainWindowPtr)` -/
  | refreshMain
  /-- "BOOM" written at `row`, `col` of the main window and made visible -/
  | boom (row col : Int)
  /-- four blanks written at `row`, `col` of the main window and made visible -/
  | unboom (row col : Int)
  /-- `beep()` -/
  | beep
  /-- the message of `handleConnectionDenied` -/
  | denied
  /-- the message of `handleWon` -/
  | won
  /-- the text at `update+2` written to the error window (`none`: no zero byte
  ends it within `update`, see `cStringAt`) -/
  | errorText (text : Option (List Nat))
  /-- "Unknown char w/int value %d received." written to the error window -/
  | unknownChar (value : Int)
  deriving DecidableEq, Repr

/-! ## `handleWholeBoard` and `handleInvaderKilled` -/

/-- The inner loop of part II.C of `handleWholeBoard`, over the files of one
rank: `count` iterations are left, `fileIndex` and `currentBitPosition` are the
loop variables (`currentBitPosition` is a 32-bit `int`, kept as its bit
pattern). -/
def drawRank (H : Headers) (bitArray : Nat) (rankIndex : Nat) (bottom left : Int)
    (interval : Nat) : Nat → Nat → Nat → List Event
  | 0, _, _ => []
  | count + 1, fileIndex, currentBitPosition =>
      (if bitArray &&& currentBitPosition ≠ 0 then
        [Event.liveInvader
          (toShort (H.getInvaderRowGivenRankAndBottommostRankRow rankIndex bottom))
          (toShort (H.getInvadersLeftmostColGivenFileAndLeftmostCol fileIndex left))
          (interval % H.NUM_INVADER_FRAMES)]
      else [])
      ++ drawRank H bitArray rankIndex bottom left interval count (fileIndex + 1)
          (currentBitPosition * 2 % 4294967296)

/-- The outer loop of part II.C of `handleWholeBoard`, over the ranks: `count`
iterations are left, `rankIndex` and `bufferCursor` (an offset into `update`)
are the loop variables. -/
def drawRanks (H : Headers) (le : Bool) (update : List Nat) (bottom left : Int)
    (interval : Nat) : Nat → Nat → Nat → List Event
  | 0, _, _ => []
  | count + 1, rankIndex, bufferCursor =>
      drawRank H (ntohl le (load32 le update bufferCursor)) rankIndex bottom left interval
        H.NUM_INVADERS_PER_RANK 0 1
      ++ drawRanks H le update bottom left interval count (rankIndex + 1)
          (bufferCursor + SIZE32)

/-- Part II.D of `handleWholeBoard`, the loop over the invader bullets:
`count` iterations are left, `bufferCursor` is the loop's cursor. -/
def drawInvaderBullets (H : Headers) (le : Bool) (update : List Nat) : Nat → Nat → List Event
  | 0, _ => []
  | count + 1, bufferCursor =>
      let row := toShort (ntohs le (load16 le update bufferCursor))
      let col := toShort (ntohs le (load16 le update (bufferCursor + SIZE16)))
      (if row ≠ H.ILLEGAL_ROW ∧ col ≠ H.ILLEGAL_COL then [Event.invaderBullet row col] else [])
      ++ drawInvaderBullets H le update count (bufferCursor + SIZE16 + SIZE16)

/-- What a call of `handleWholeBoard` leaves behind: the display calls it
made, the values stored through `bottommostInvaderRankRowPtr` and
`leftMostInvaderColPtr`, and the static counter `interval`. -/
structure WholeBoardResult where
  events : List Event
  bottommostInvaderRankRow : Int
  leftMostInvaderCol : Int
  interval : Nat
  deriving DecidableEq, Repr

/-- `void handleWholeBoard(char* update, int ouchCount, short*
bottommostInvaderRankRowPtr, short* leftMostInvaderColPtr)`; `interval` is the
value of the function's static counter on entry. -/
def handleWholeBoard (H : Headers) (le : Bool) (update : List Nat) (ouchCount : Int)
    (interval : Nat) : WholeBoardResult :=
  -- II.B
  let bottom := toShort (ntohs le (load16 le update (1 * SIZE16)))
  let left := toShort (ntohs le (load16 le update (2 * SIZE16)))
  -- II.C (each of the NUM_INVADER_RANKS iterations advances the cursor by SIZE32)
  let bufferCursor := 3 * SIZE16
  let interval := interval + 1
  let invaders := drawRanks H le update bottom left interval H.NUM_INVADER_RANKS 0 bufferCursor
  let bufferCursor := bufferCursor + H.NUM_INVADER_RANKS * SIZE32
  -- II.D (each of the MAX_NUM_INVADER_BULLETS iterations advances it by SIZE16 twice)
  let bullets := drawInvaderBullets H le update H.MAX_NUM_INVADER_BULLETS bufferCursor
  let bufferCursor := bufferCursor + H.MAX_NUM_INVADER_BULLETS * (SIZE16 + SIZE16)
  -- II.E
  let col := toShort (ntohs le (load16 le update bufferCursor))
  let bufferCursor := bufferCursor + SIZE16
  let defender := if col ≠ H.ILLEGAL_COL then [Event.defender H.defenderRow col] else []
  -- II.F
  let row := toShort (ntohs le (load16 le update bufferCursor))
  let bufferCursor := bufferCursor + SIZE16
  let col := toShort (ntohs le (load16 le update bufferCursor))
  let defenderBullet :=
    if row ≠ H.ILLEGAL_ROW ∧ col ≠ H.ILLEGAL_COL then [Event.defenderBullet row col] else []
  -- II.G, III
  ⟨[Event.clearMain] ++ invaders ++ bullets ++ defender ++ defenderBullet
      ++ [Event.ouchCount ouchCount, Event.refreshMain],
    bottom, left, interval⟩

/-- `void handleInvaderKilled(char* update, short bottommostInvaderRankRow,
short leftMostInvaderCol)`: the display calls it makes. -/
def handleInvaderKilled (H : Headers) (le : Bool) (update : List Nat)
    (bottommostInvaderRankRow leftMostInvaderCol : Int) : List Event :=
  let rankIndex := toShort (ntohs le (load16 le update (1 * SIZE16)))
  let fileIndex := toShort (ntohs le (load16 le update (2 * SIZE16)))
  let row := toShort (H.getInvaderRowGivenRankAndBottommostRankRow rankIndex
    bottommostInvaderRankRow)
  let col := toShort (H.getInvadersLeftmostColGivenFileAndLeftmostCol fileIndex
    leftMostInvaderCol)
  [Event.boom row col, Event.unboom row col]

/-! ## `attendToServer` -/

/-- The variables of `attendToServer` together with the globals it reads and
writes: the flag `shouldContinueGame`, `errno`, the local variables, the static
counter of `handleWholeBoard`, the display calls made so far, and the `read`
outcomes still to come on the connection. -/
structure ServerState where
  shouldContinueGame : Bool
  errno : Nat
  update : List Nat
  ouchCount : Int
  bottommostInvaderRankRow : Int
  leftMostInvaderCol : Int
  interval : Nat
  events : List Event
  script : List ReadOutcome
  deriving DecidableEq, Repr

/-- The state in which the loop of `attendToServer` is entered.  The array
`update` and the variable `leftMostInvaderCol` are declared without an
initialiser: their contents on entry are the arguments `update` and
`leftMostInvaderCol`. -/
def ServerState.init (H : Headers) (update : List Nat) (leftMostInvaderCol : Int)
    (errno : Nat) (script : List ReadOutcome) : ServerState where
  shouldContinueGame := true
  errno := errno
  update := update
  ouchCount := 0
  bottommostInvaderRankRow := toShort H.INIIAL_BOTTOMMOST_INVADER_RANK_ROW
  leftMostInvaderCol := leftMostInvaderCol
  interval := 0
  events := []
  script := script

/-- The C string that starts at offset `off` of an array: the bytes up to the
first zero byte.  `none` when the array holds no zero byte from `off` on: a
reader of the string (`waddstr`) then runs past the end of the array, into
memory that is not part of the state. -/
def cStringAt (buf : List Nat) (off : Nat) : Option (List Nat) :=
  if (buf.drop off).any (fun b => b % 256 = 0) then
    some ((buf.drop off).takeWhile (fun b => b % 256 ≠ 0))
  else
    none

/-- Value of the `char` stored in a byte, as the `int` that `(int)update[0]`
gives where `char` is signed. -/
def charValue (b : Nat) : Int := if b % 256 < 128 then (b % 256 : Nat) else (b % 256 : Nat) - 256

/-- Part II.A.3 of `attendToServer`: the `switch (update[0])`. -/
def doUpdate (H : Headers) (le : Bool) (s : ServerState) : ServerState :=
  let tag := byteAt s.update 0
  if tag = H.CONNECTION_DENIED_UPDATE then
    { s with events := s.events ++ [Event.denied] }
  else if tag = H.DISCONNECT_UPDATE then
    { s with shouldContinueGame := false }
  else if tag = H.BEEP_UPDATE then
    { s with events := s.events ++ [Event.beep] }
  else if tag = H.BEGIN_WHOLE_BOARD_UPDATE then
    let r := handleWholeBoard H le s.update s.ouchCount s.interval
    { s with
      events := s.events ++ r.events
      bottommostInvaderRankRow := r.bottommostInvaderRankRow
      leftMostInvaderCol := r.leftMostInvaderCol
      interval := r.interval }
  else if tag = H.HAVE_WON_UPDATE then
    { s with shouldContinueGame := false, events := s.events ++ [Event.won] }
  else if tag = H.DEFENDER_KILLED_UPDATE then
    { s with
      ouchCount := toInt32 (s.ouchCount + 1)
      events := s.events ++ [Event.ouchCount (toInt32 (s.ouchCount + 1))] }
  else if tag = H.INVADER_KILLED_UPDATE then
    { s with
      events := s.events ++
        handleInvaderKilled H le s.update s.bottommostInvaderRankRow s.leftMostInvaderCol }
  else if tag = H.ERROR_UPDATE then
    { s with events := s.events ++ [Event.errorText (cStringAt s.update 2)] }
  else
    { s with events := s.events ++ [Event.unknownChar (charValue (byteAt s.update 0))] }

/-- One iteration of the `while (shouldContinueGame)` loop of `attendToServer`
(parts II.A.1 to II.A.3); `none` when `rio_read` is still blocked. -/
def serverIteration (H : Headers) (le : Bool) (s : ServerState) : Option ServerState :=
  -- update[0] = '\0';
  let update := writeBytes s.update 0 [0]
  match rio_read s.script update H.MAX_UPDATE_LEN s.errno with
  | none => none
  | some r =>
      let remoteLen := toInt32 r.ret
      let s1 := { s with update := r.buf, errno := r.errno, script := r.rest }
      if remoteLen = -1 ∧ r.errno = EAGAIN then
        some s1
      else
        some (doUpdate H le s1)

/-- The loop of `attendToServer`, run for at most `fuel` iterations: `none`
when the loop has not ended within them or is blocked in a `read`. -/
def attendToServer_loop (H : Headers) (le : Bool) : Nat → ServerState → Option ServerState
  | 0, s => if s.shouldContinueGame then none else some s
  | fuel + 1, s =>
      if s.shouldContinueGame then
        match serverIteration H le s with
        | none => none
        | some s1 => attendToServer_loop H le fuel s1
      else
        some s

/-- `void* attendToServer(void* vPtr)`, from the entry of the function, on the
`read` outcomes `script`. -/
def attendToServer (H : Headers) (le : Bool) (fuel : Nat) (update : List Nat)
    (leftMostInvaderCol : Int) (errno : Nat) (script : List ReadOutcome) : Option ServerState :=
  attendToServer_loop H le fuel (ServerState.init H update leftMostInvaderCol errno script)

/-! ## `ServerCommInfo::didParse` -/

/-- The member variables of `ServerCommInfo`; `hostName` is the C string held
in the array `hostName[C_STRING_MAX]`. -/
structure ServerCommInfo where
  hostName : List Char
  portNumber : Int
  connectFD : Int
  deriving DecidableEq, Repr

/-- The constructor `ServerCommInfo()`. -/
def ServerCommInfo.new : ServerCommInfo := ⟨[], -1, -1⟩

/-- The terminating character of a C string. -/
def NUL : Char := Char.ofNat 0

/-- The C string a `const char*` points to: the characters before the first
NUL. -/
def cString (chars : List Char) : List Char := chars.takeWhile (fun c => c ≠ NUL)

/-- `isspace` of `<ctype.h>` in the "C" locale. -/
def isspace (c : Char) : Bool :=
  c = ' ' ∨ c = '\t' ∨ c = '\n' ∨ c = Char.ofNat 11 ∨ c = Char.ofNat 12 ∨ c = '\r'

/-- `isdigit` of `<ctype.h>`. -/
def isdigit (c : Char) : Bool := '0' ≤ c ∧ c ≤ '9'

/-- `strchr(s, c)` for `c ≠ NUL`: the offset of the first `c` in `s`, or `none`
for a NULL result. -/
def strchr (s : List Char) (c : Char) : Option Nat :=
  match s with
  | [] => none
  | x :: xs => if x = c then some 0 else (strchr xs c).map (· + 1)

/-- The digit-reading loop of `strtol` in base 10: the value of the leading
run of decimal digits, continuing from `acc`, and the characters after it. -/
def strtolDigits : List Char → Nat → Nat × List Char
  | [], acc => (acc, [])
  | c :: cs, acc =>
      if isdigit c then strtolDigits cs (acc * 10 + (c.toNat - '0'.toNat))
      else (acc, c :: cs)

/-- `LONG_MAX` where `long` has 64 bits. -/
def LONG_MAX : Int := 9223372036854775807

/-- `LONG_MIN` where `long` has 64 bits. -/
def LONG_MIN : Int := -9223372036854775808

/-- `strtol(s, &endPtr, 10)` of `<stdlib.h>`: leading white space, an optional
sign and a run of decimal digits; returns the value (clamped to the range of
`long`) and what `endPtr` points to (the pair `r` with `r.1` the value and `r.2`
the rest).  Without any digit the value is 0 and `endPtr` is `s`. -/
def strtol (s : List Char) : Int × List Char :=
  let t := s.dropWhile isspace
  let neg := t.head? = some '-'
  let u := if t.head? = some '-' ∨ t.head? = some '+' then t.tail else t
  match u with
  | [] => (0, s)
  | c :: _ =>
      if isdigit c then
        let r := strtolDigits u 0
        let value : Int := if neg then -(r.1 : Int) else (r.1 : Int)
        (max LONG_MIN (min LONG_MAX value), r.2)
      else (0, s)

/-- The test `(*cPtr != '\0') && !isspace(*cPtr)` on what `cPtr` points to. -/
def extraneous (rest : List Char) : Bool :=
  match rest with
  | [] => false
  | c :: _ => !isspace c

/-- `strncpy(hostName, src, count); hostName[count] = '\0';`: the C string left
in `hostName`. -/
def copyHostName (src : List Char) (count : Nat) : List Char := src.take count

/-- `bool ServerCommInfo::didParse(const char* urlNamePtr)`: the returned value
and the object afterwards.  `none` is the NULL pointer. -/
def ServerCommInfo.didParse (H : Headers) (self : ServerCommInfo)
    (urlNamePtr : Option (List Char)) : Bool × ServerCommInfo :=
  match urlNamePtr with
  | none => (false, self)                                 -- I.A
  | some chars =>
      let url := (cString chars).dropWhile isspace        -- I.B.1
      match url with
      | [] => (false, self)                               -- I.B.2
      | first :: _ =>
          match strchr url ':' with
          | none =>
              -- II.B.1.a
              let self := { self with
                hostName := copyHostName (cString H.INITIAL_HOST) (H.C_STRING_MAX - 1)
                portNumber := H.INITIAL_PORT }
              if isdigit first then
                if strchr url '.' = none then
                  let r := strtol url
                  let self := { self with portNumber := toInt32 r.1 }
                  if extraneous r.2 then (false, self) else (true, self)
                else
                  (true, { self with hostName := copyHostName url (H.C_STRING_MAX - 1) })
              else
                (true, { self with hostName := copyHostName url (H.C_STRING_MAX - 1) })
          | some hostNameNumChars =>
              -- II.B.2
              let numCharsToCopy := H.C_STRING_MAX - 1
              if hostNameNumChars = 0 then (false, self)
              else
                let numCharsToCopy :=
                  if hostNameNumChars < numCharsToCopy then hostNameNumChars else numCharsToCopy
                let self := { self with hostName := copyHostName url numCharsToCopy }
                let afterSeparator := url.drop (hostNameNumChars + 1)
                if !(match afterSeparator with | [] => false | c :: _ => isdigit c) then
                  (false, self)
                else
                  let r := strtol afterSeparator
                  let self := { self with portNumber := toInt32 r.1 }
                  if extraneous r.2 then (false, self) else (true, self)

/-! ## Vocabulary of the statements about `rio_read` -/

/-- `InsertsEINTR s t`: the script `t` is the script `s` with finitely many
`EINTR` failures inserted, anywhere. -/
inductive InsertsEINTR : List ReadOutcome → List ReadOutcome → Prop where
  | nil : InsertsEINTR [] []
  | keep (o : ReadOutcome) {s t : List ReadOutcome} :
      InsertsEINTR s t → InsertsEINTR (o :: s) (o :: t)
  | insert {s t : List ReadOutcome} :
      InsertsEINTR s t → InsertsEINTR s (ReadOutcome.fail EINTR :: t)

/-- The bytes a script delivers, in arrival order. -/
def delivered : List ReadOutcome → List Nat
  | [] => []
  | .data bs :: rest => bs ++ delivered rest
  | .fail _ :: rest => delivered rest

/-- The numbers of bytes still missing from a request of `n` bytes before each
of the deliveries `ds`. -/
def missingCounts (n : Nat) : List (List Nat) → List Nat
  | [] => []
  | d :: ds => n :: missingCounts (n - d.length) ds

/-- The return value and the buffer of a `rio_read` result. -/
def RioResult.countAndBuffer (r : RioResult) : Int × List Nat := (r.ret, r.buf)

/-! ## Vocabulary of the statements about `attendToServer` -/

/-- The `case` labels of the `switch` of `attendToServer`, in source order. -/
def Headers.caseLabels (H : Headers) : List Nat :=
  [H.CONNECTION_DENIED_UPDATE, H.DISCONNECT_UPDATE, H.BEEP_UPDATE, H.BEGIN_WHOLE_BOARD_UPDATE,
    H.HAVE_WON_UPDATE, H.DEFENDER_KILLED_UPDATE, H.INVADER_KILLED_UPDATE, H.ERROR_UPDATE]

/-- The big-endian 16-bit field at byte offset `off` of a frame. -/
def be16 (frame : List Nat) (off : Nat) : Nat :=
  256 * byteAt frame off + byteAt frame (off + 1)

/-- The big-endian 32-bit field at byte offset `off` of a frame. -/
def be32 (frame : List Nat) (off : Nat) : Nat :=
  16777216 * byteAt frame off + 65536 * byteAt frame (off + 1) + 256 * byteAt frame (off + 2)
    + byteAt frame (off + 3)

/-- The positions at which a list of display calls draws a live invader, in
drawing order. -/
def liveInvaderPositions (events : List Event) : List (Int × Int) :=
  events.filterMap fun e =>
    match e with
    | Event.liveInvader row col _ => some (row, col)
    | _ => none

/-- The screen position of the invader of rank `r` and file `f` in a formation
whose bottommost rank is on row `bottom` and whose leftmost file is at column
`left`: what the two position functions of `headers.h` give, stored in the
`short` variables `row` and `col`. -/
def invaderPosition (H : Headers) (r f : Nat) (bottom left : Int) : Int × Int :=
  (toShort (H.getInvaderRowGivenRankAndBottommostRankRow r bottom),
    toShort (H.getInvadersLeftmostColGivenFileAndLeftmostCol f left))

/-- The positions at which a list of display calls draws a defender bullet, in
drawing order. -/
def defenderBulletPositions (events : List Event) : List (Int × Int) :=
  events.filterMap fun e =>
    match e with
    | Event.defenderBullet row col => some (row, col)
    | _ => none

/-- A WholeBoard frame for the constants of `exampleHeaders` (2 ranks, 2 invader
bullets), laid out as the comment of `handleWholeBoard` documents: tag "ww",
bottommost row 20, leftmost column 5, rank-0 mask 1, rank-1 mask 0, two absent
invader bullets, defender 0 at column 30, defender 1 at column 31, the bullet
of defender 0 at row 10, column 33, no bullet of defender 1, zero padding up to
`MAX_UPDATE_LEN`. -/
def exampleWholeBoard : List Nat :=
  [119, 119, 0, 20, 0, 5,
    0, 0, 0, 1, 0, 0, 0, 0,
    255, 255, 255, 255, 255, 255, 255, 255,
    0, 30, 0, 31,
    0, 10, 0, 33, 255, 255, 255, 255]
  ++ List.replicate 14 0

/-- `BeforeWholeBoard H le s`: the loop of `attendToServer` is in state `s`
before any WholeBoard frame has been processed: `s` is the state on entry of
the function (the array `update` has `MAX_UPDATE_LEN` elements), or comes from
such a state by one iteration that did not leave the WholeBoard tag in
`update[0]`. -/
inductive BeforeWholeBoard (H : Headers) (le : Bool) : ServerState → Prop where
  | entry (update : List Nat) (leftMostInvaderCol : Int) (errno : Nat)
      (script : List ReadOutcome) :
      update.length = H.MAX_UPDATE_LEN →
      BeforeWholeBoard H le (ServerState.init H update leftMostInvaderCol errno script)
  | iteration {s s1 : ServerState} :
      BeforeWholeBoard H le s → serverIteration H le s = some s1 →
      byteAt s1.update 0 ≠ H.BEGIN_WHOLE_BOARD_UPDATE →
      BeforeWholeBoard H le s1

/-- The first `count` iterations of the loop of `attendToServer` from the state
`s` (fewer when the loop ends before): the state reached, or `none` when one of
these iterations is still blocked in a `read`. -/
def serverIterations (H : Headers) (le : Bool) : Nat → ServerState → Option ServerState
  | 0, s => some s
  | count + 1, s =>
      if s.shouldContinueGame then
        match serverIteration H le s with
        | none => none
        | some s1 => serverIterations H le count s1
      else
        some s

/-- `Processed H le s0 frames s`: the loop of `attendToServer`, entered in state
`s0`, has processed the frames `frames`, one per iteration and in this order,
and is now in state `s`.  Each frame takes one iteration that starts with the
liveness flag set and in which the reads of `rio_read` meet the non-empty
deliveries `ds` that make up the `MAX_UPDATE_LEN` bytes of the frame. -/
inductive Processed (H : Headers) (le : Bool) (s0 : ServerState) :
    List (List Nat) → ServerState → Prop where
  | start : Processed H le s0 [] s0
  | frame {frames : List (List Nat)} {s s1 : ServerState} (ds : List (List Nat))
      (rest : List ReadOutcome) :
      Processed H le s0 frames s →
      s.shouldContinueGame = true →
      s.script = ds.map ReadOutcome.data ++ rest →
      (∀ d ∈ ds, d ≠ []) → ds.flatten.length = H.MAX_UPDATE_LEN →
      serverIteration H le s = some s1 →
      Processed H le s0 (frames ++ [ds.flatten]) s1

/-- The number of DefenderHit frames in a list of frames. -/
def hitCount (H : Headers) (frames : List (List Nat)) : Nat :=
  frames.countP fun f => decide (byteAt f 0 = H.DEFENDER_KILLED_UPDATE)

/-- A frame of `MAX_UPDATE_LEN` bytes for the constants of `exampleHeaders` that
holds the one-byte tag `tag` followed by zero bytes. -/
def exampleFrame (tag : Nat) : List Nat := tag :: List.replicate 47 0

/-! ## Vocabulary of the statements about `didParse` -/

/-- The decimal value of a string of digits. -/
def decimalValue (d : List Char) : Nat :=
  d.foldl (fun acc c => acc * 10 + (c.toNat - '0'.toNat)) 0

/-! # Theorems -/

/-! ## `rio_read`: one step of the loop -/

theorem rio_loop_zero (n : Nat) (script : List ReadOutcome) (bufp : Nat) (buf : List Nat)
    (errno : Nat) (log : List Nat) :
    rio_loop n script 0 bufp buf errno log = some ⟨(n : Int), buf, errno, log, script⟩ := by
  cases script <;> simp [rio_loop]

theorem rio_loop_eintr (n : Nat) (rest : List ReadOutcome) (nleft bufp : Nat) (buf : List Nat)
    (errno : Nat) (log : List Nat) (h : 0 < nleft) :
    rio_loop n (ReadOutcome.fail EINTR :: rest) nleft bufp buf errno log
      = rio_loop n rest nleft bufp buf EINTR (log ++ [nleft]) := by
  obtain ⟨k, rfl⟩ : ∃ k, nleft = k + 1 := ⟨nleft - 1, by omega⟩
  simp [rio_loop, read]

theorem rio_loop_fail (n : Nat) (e : Nat) (rest : List ReadOutcome) (nleft bufp : Nat)
    (buf : List Nat) (errno : Nat) (log : List Nat) (h : 0 < nleft) (he : e ≠ EINTR) :
    rio_loop n (ReadOutcome.fail e :: rest) nleft bufp buf errno log
      = some ⟨-1, buf, e, log ++ [nleft], rest⟩ := by
  obtain ⟨k, rfl⟩ : ∃ k, nleft = k + 1 := ⟨nleft - 1, by omega⟩
  simp [rio_loop, read, he]

theorem rio_loop_eof (n : Nat) (rest : List ReadOutcome) (nleft bufp : Nat) (buf : List Nat)
    (errno : Nat) (log : List Nat) (h : 0 < nleft) :
    rio_loop n (ReadOutcome.data [] :: rest) nleft bufp buf errno log
      = some ⟨(n : Int) - (nleft : Int), buf, errno, log ++ [nleft], rest⟩ := by
  obtain ⟨k, rfl⟩ : ∃ k, nleft = k + 1 := ⟨nleft - 1, by omega⟩
  simp [rio_loop, read, requeue]

theorem rio_loop_some_bytes (n : Nat) (d : List Nat) (rest : List ReadOutcome) (nleft bufp : Nat)
    (buf : List Nat) (errno : Nat) (log : List Nat) (hd : d ≠ []) (h : d.length < nleft) :
    rio_loop n (ReadOutcome.data d :: rest) nleft bufp buf errno log
      = rio_loop n rest (nleft - d.length) (bufp + d.length) (writeBytes buf bufp d) errno
          (log ++ [nleft]) := by
  obtain ⟨k, rfl⟩ : ∃ k, nleft = k + 1 := ⟨nleft - 1, by omega⟩
  have hlen : 0 < d.length := List.length_pos.mpr hd
  have htake : d.take (k + 1) = d := List.take_of_length_le (by omega)
  have h1 : ¬ ((d.length : Int) < 0) := by omega
  have h2 : ¬ ((d.length : Int) = 0) := by omega
  have h3 : ¬ (k + 1 - d.length = 0) := by omega
  simp only [rio_loop, read, htake, h1, h2, h3, if_false, Int.toNat_ofNat]

theorem rio_loop_fill (n : Nat) (d : List Nat) (rest : List ReadOutcome) (nleft bufp : Nat)
    (buf : List Nat) (errno : Nat) (log : List Nat) (h : 0 < nleft) (hd : nleft ≤ d.length) :
    rio_loop n (ReadOutcome.data d :: rest) nleft bufp buf errno log
      = some ⟨(n : Int), writeBytes buf bufp (d.take nleft), errno, log ++ [nleft],
          requeue (d.drop nleft) rest⟩ := by
  obtain ⟨k, rfl⟩ : ∃ k, nleft = k + 1 := ⟨nleft - 1, by omega⟩
  have hlen : (d.take (k + 1)).length = k + 1 := by simp [List.length_take]; omega
  have h1 : ¬ (((k + 1 : Nat) : Int) < 0) := by omega
  have h2 : ¬ (((k + 1 : Nat) : Int) = 0) := by omega
  simp only [rio_loop, read, hlen, h1, h2, if_false, Int.toNat_ofNat, Nat.sub_self, if_true]
  simp

/-! ## `rio_read`: the buffer -/

theorem writeBytes_nil (buf : List Nat) (off : Nat) : writeBytes buf off [] = buf := by
  simp [writeBytes]

theorem length_writeBytes (buf : List Nat) (off : Nat) (bs : List Nat) (h : off ≤ buf.length) :
    off + bs.length ≤ (writeBytes buf off bs).length := by
  simp [writeBytes, List.length_take]
  omega

theorem writeBytes_writeBytes (buf : List Nat) (off : Nat) (bs cs : List Nat)
    (h : off ≤ buf.length) :
    writeBytes (writeBytes buf off bs) (off + bs.length) cs = writeBytes buf off (bs ++ cs) := by
  have ht : (buf.take off).length = off := by simp [List.length_take]; omega
  have e1 : (buf.take off ++ bs ++ buf.drop (off + bs.length)).take (off + bs.length)
      = buf.take off ++ bs := by
    have : (buf.take off ++ bs).length = off + bs.length := by simp [ht]
    rw [← this, List.take_left]
  have e2 : (buf.take off ++ bs ++ buf.drop (off + bs.length)).drop (off + bs.length + cs.length)
      = buf.drop (off + (bs.length + cs.length)) := by
    have : (buf.take off ++ bs).length = off + bs.length := by simp [ht]
    rw [← this, ← List.drop_drop, List.drop_left, List.drop_drop, this, Nat.add_assoc]
  unfold writeBytes
  rw [e1, List.length_append, ← Nat.add_assoc, e2]
  simp [Nat.add_assoc]

theorem writeBytes_zero (buf bs : List Nat) :
    writeBytes buf 0 bs = bs ++ buf.drop bs.length := by
  simp [writeBytes]

/-! ## `rio_read`: runs of deliveries -/

theorem rio_loop_deliveries (n : Nat) (rest : List ReadOutcome) (errno : Nat) :
    ∀ (ds : List (List Nat)) (nleft bufp : Nat) (buf log : List Nat),
      (∀ d ∈ ds, d ≠ []) → ds.flatten.length = nleft → bufp ≤ buf.length →
      rio_loop n (ds.map ReadOutcome.data ++ rest) nleft bufp buf errno log
        = some ⟨(n : Int), writeBytes buf bufp ds.flatten, errno,
            log ++ missingCounts nleft ds, rest⟩ := by
  intro ds
  induction ds with
  | nil =>
      intro nleft bufp buf log _ hsum _
      simp at hsum
      subst hsum
      simp [rio_loop_zero, writeBytes_nil, missingCounts]
  | cons d ds ih =>
      intro nleft bufp buf log hne hsum hb
      have hd : d ≠ [] := hne d (List.mem_cons_self _ _)
      have hdpos : 0 < d.length := List.length_pos.mpr hd
      simp only [List.flatten_cons, List.length_append] at hsum
      cases ds with
      | nil =>
          simp at hsum
          have h := rio_loop_fill n d rest nleft bufp buf errno log (by omega) (by omega)
          have ht : d.take nleft = d := List.take_of_length_le (by omega)
          have hdr : d.drop nleft = [] := List.drop_of_length_le (by omega)
          simp [h, ht, hdr, requeue, missingCounts]
      | cons d2 ds2 =>
          have hd2 : d2 ≠ [] := hne d2 (by simp)
          have hd2pos : 0 < d2.length := List.length_pos.mpr hd2
          have hlt : d.length < nleft := by
            simp only [List.flatten_cons, List.length_append] at hsum
            omega
          have h := rio_loop_some_bytes n d ((d2 :: ds2).map ReadOutcome.data ++ rest) nleft bufp
            buf errno log hd hlt
          have hih := ih (nleft - d.length) (bufp + d.length) (writeBytes buf bufp d)
            (log ++ [nleft]) (fun x hx => hne x (List.mem_cons_of_mem _ hx)) (by omega)
            (length_writeBytes buf bufp d hb)
          simp only [List.map_cons, List.cons_append] at h hih ⊢
          rw [h, hih, writeBytes_writeBytes buf bufp d _ hb]
          simp [missingCounts]

theorem rio_loop_close (n : Nat) (rest : List ReadOutcome) :
    ∀ (pre : List ReadOutcome) (nleft bufp : Nat) (buf : List Nat) (errno : Nat)
      (log : List Nat),
      (∀ o ∈ pre, o = ReadOutcome.fail EINTR ∨ ∃ d, d ≠ [] ∧ o = ReadOutcome.data d) →
      (delivered pre).length < nleft → bufp ≤ buf.length →
      ∃ r, rio_loop n (pre ++ ReadOutcome.data [] :: rest) nleft bufp buf errno log = some r
        ∧ r.ret = (n : Int) - ((nleft - (delivered pre).length : Nat) : Int)
        ∧ r.buf = writeBytes buf bufp (delivered pre) ∧ r.rest = rest := by
  intro pre
  induction pre with
  | nil =>
      intro nleft bufp buf errno log _ hlt _
      simp only [delivered, List.length_nil] at hlt
      refine ⟨_, rio_loop_eof n rest nleft bufp buf errno log hlt, ?_, ?_, rfl⟩
      · simp [delivered]
      · simp [delivered, writeBytes_nil]
  | cons o pre ih =>
      intro nleft bufp buf errno log hpre hlt hb
      have hpre2 : ∀ o ∈ pre, o = ReadOutcome.fail EINTR ∨ ∃ d, d ≠ [] ∧ o = ReadOutcome.data d :=
        fun x hx => hpre x (List.mem_cons_of_mem _ hx)
      rcases hpre o (List.mem_cons_self _ _) with rfl | ⟨d, hd, rfl⟩
      · simp only [delivered] at hlt ⊢
        obtain ⟨r, hr, h1, h2, h3⟩ := ih nleft bufp buf EINTR (log ++ [nleft]) hpre2 hlt hb
        refine ⟨r, ?_, h1, h2, h3⟩
        rw [List.cons_append, rio_loop_eintr n _ nleft bufp buf errno log (by omega)]
        exact hr
      · simp only [delivered, List.length_append] at hlt ⊢
        obtain ⟨r, hr, h1, h2, h3⟩ := ih (nleft - d.length) (bufp + d.length)
          (writeBytes buf bufp d) errno (log ++ [nleft]) hpre2 (by omega)
          (length_writeBytes buf bufp d hb)
        refine ⟨r, ?_, ?_, ?_, h3⟩
        · rw [List.cons_append, rio_loop_some_bytes n d _ nleft bufp buf errno log hd (by omega)]
          exact hr
        · rw [h1]
          congr 2
          omega
        · rw [h2, writeBytes_writeBytes buf bufp d _ hb]

/-! ## `rio_read`: interruptions -/

theorem rio_loop_countAndBuffer_indep (n : Nat) :
    ∀ (script : List ReadOutcome) (nleft bufp : Nat) (buf : List Nat) (e e2 : Nat)
      (l l2 : List Nat),
      (rio_loop n script nleft bufp buf e l).map RioResult.countAndBuffer
        = (rio_loop n script nleft bufp buf e2 l2).map RioResult.countAndBuffer := by
  intro script
  induction script with
  | nil =>
      intro nleft bufp buf e e2 l l2
      cases nleft <;> simp [rio_loop, RioResult.countAndBuffer]
  | cons o rest ih =>
      intro nleft bufp buf e e2 l l2
      rcases Nat.eq_zero_or_pos nleft with rfl | hpos
      · simp [rio_loop_zero, RioResult.countAndBuffer]
      · cases o with
        | fail e0 =>
            by_cases he : e0 = EINTR
            · subst he
              rw [rio_loop_eintr n rest nleft bufp buf e l hpos,
                rio_loop_eintr n rest nleft bufp buf e2 l2 hpos]
              exact ih _ _ _ _ _ _ _
            · rw [rio_loop_fail n e0 rest nleft bufp buf e l hpos he,
                rio_loop_fail n e0 rest nleft bufp buf e2 l2 hpos he]
              rfl
        | data d =>
            by_cases hd : d = []
            · subst hd
              rw [rio_loop_eof n rest nleft bufp buf e l hpos,
                rio_loop_eof n rest nleft bufp buf e2 l2 hpos]
              rfl
            · by_cases hlt : d.length < nleft
              · rw [rio_loop_some_bytes n d rest nleft bufp buf e l hd hlt,
                  rio_loop_some_bytes n d rest nleft bufp buf e2 l2 hd hlt]
                exact ih _ _ _ _ _ _ _
              · rw [rio_loop_fill n d rest nleft bufp buf e l hpos (by omega),
                  rio_loop_fill n d rest nleft bufp buf e2 l2 hpos (by omega)]
                rfl

theorem rio_loop_insertsEINTR (n : Nat) {s t : List ReadOutcome} (h : InsertsEINTR s t) :
    ∀ (nleft bufp : Nat) (buf : List Nat) (e : Nat) (l : List Nat),
      (rio_loop n t nleft bufp buf e l).map RioResult.countAndBuffer
        = (rio_loop n s nleft bufp buf e l).map RioResult.countAndBuffer := by
  induction h with
  | nil => intro nleft bufp buf e l; rfl
  | @keep o s t _ ih =>
      intro nleft bufp buf e l
      rcases Nat.eq_zero_or_pos nleft with rfl | hpos
      · simp [rio_loop_zero, RioResult.countAndBuffer]
      · cases o with
        | fail e0 =>
            by_cases he : e0 = EINTR
            · subst he
              rw [rio_loop_eintr n t nleft bufp buf e l hpos,
                rio_loop_eintr n s nleft bufp buf e l hpos]
              exact ih _ _ _ _ _
            · rw [rio_loop_fail n e0 t nleft bufp buf e l hpos he,
                rio_loop_fail n e0 s nleft bufp buf e l hpos he]
              rfl
        | data d =>
            by_cases hd : d = []
            · subst hd
              rw [rio_loop_eof n t nleft bufp buf e l hpos,
                rio_loop_eof n s nleft bufp buf e l hpos]
              rfl
            · by_cases hlt : d.length < nleft
              · rw [rio_loop_some_bytes n d t nleft bufp buf e l hd hlt,
                  rio_loop_some_bytes n d s nleft bufp buf e l hd hlt]
                exact ih _ _ _ _ _
              · rw [rio_loop_fill n d t nleft bufp buf e l hpos (by omega),
                  rio_loop_fill n d s nleft bufp buf e l hpos (by omega)]
                rfl
  | @insert s t _ ih =>
      intro nleft bufp buf e l
      rcases Nat.eq_zero_or_pos nleft with rfl | hpos
      · simp [rio_loop_zero, RioResult.countAndBuffer]
      · rw [rio_loop_eintr n t nleft bufp buf e l hpos, ← ih nleft bufp buf e l]
        exact rio_loop_countAndBuffer_indep n t nleft bufp buf _ _ _ _

/-! ## `rio_read`: the claims -/

/-- Claim C1, as stated, fails: asked for 4 bytes, with one byte delivered and
then a `read` that returns 0 (the peer closed), `rio_read` returns the
non-negative count 1, smaller than 4, and not an error indication. -/
theorem rio_read_close_counterexample :
    rio_read [ReadOutcome.data [7], ReadOutcome.data []] [0, 0, 0, 0] 4 0
      = some ⟨1, [7, 0, 0, 0], 0, [4, 3], []⟩ := by
  decide

/-- Claim C1, amended: when a `read` returns 0 (the peer closed) after the
deliveries and `EINTR` interruptions `pre` have brought fewer than `n` bytes,
`rio_read` returns, and its result is the non-negative number of bytes
accumulated so far, smaller than `n` (a short count, not an error
indication); these bytes are in the buffer and the outcomes after the close
are left unread. -/
theorem rio_read_close_short_count (n : Nat) (pre rest : List ReadOutcome) (usrbuf : List Nat)
    (errno : Nat)
    (hpre : ∀ o ∈ pre, o = ReadOutcome.fail EINTR ∨ ∃ d, d ≠ [] ∧ o = ReadOutcome.data d)
    (hlt : (delivered pre).length < n) :
    ∃ r, rio_read (pre ++ ReadOutcome.data [] :: rest) usrbuf n errno = some r
      ∧ r.ret = ((delivered pre).length : Int) ∧ 0 ≤ r.ret ∧ r.ret < (n : Int)
      ∧ r.buf = delivered pre ++ usrbuf.drop (delivered pre).length ∧ r.rest = rest := by
  obtain ⟨r, hr, h1, h2, h3⟩ :=
    rio_loop_close n rest pre n 0 usrbuf errno [] hpre hlt (Nat.zero_le _)
  have hret : r.ret = ((delivered pre).length : Int) := by
    rw [h1]
    omega
  refine ⟨r, hr, hret, ?_, ?_, ?_, h3⟩
  · omega
  · omega
  · rw [h2, writeBytes_zero]

/-- Claim C1 (amended) on a request of 4 bytes: one byte, an interruption, two
bytes, then the close. -/
theorem rio_read_close_short_count_witness :
    ∃ r, rio_read ([ReadOutcome.data [7], ReadOutcome.fail EINTR, ReadOutcome.data [8, 9]]
          ++ ReadOutcome.data [] :: [ReadOutcome.data [1]]) [0, 0, 0, 0] 4 0 = some r
      ∧ r.ret = ((delivered
          [ReadOutcome.data [7], ReadOutcome.fail EINTR, ReadOutcome.data [8, 9]]).length : Int)
      ∧ 0 ≤ r.ret ∧ r.ret < ((4 : Nat) : Int)
      ∧ r.buf = delivered [ReadOutcome.data [7], ReadOutcome.fail EINTR, ReadOutcome.data [8, 9]]
          ++ [0, 0, 0, 0].drop
            (delivered
              [ReadOutcome.data [7], ReadOutcome.fail EINTR, ReadOutcome.data [8, 9]]).length
      ∧ r.rest = [ReadOutcome.data [1]] :=
  rio_read_close_short_count 4
    [ReadOutcome.data [7], ReadOutcome.fail EINTR, ReadOutcome.data [8, 9]]
    [ReadOutcome.data [1]] [0, 0, 0, 0] 0
    (by
      intro o ho
      simp only [List.mem_cons, List.mem_singleton, List.not_mem_nil, or_false] at ho
      rcases ho with rfl | rfl | rfl
      · exact Or.inr ⟨[7], by decide, rfl⟩
      · exact Or.inl rfl
      · exact Or.inr ⟨[8, 9], by decide, rfl⟩)
    (by decide)

/-- Claim C2: for every `n` and every script of `read` outcomes, inserting any
finite number of `EINTR` failures anywhere in the script changes neither
whether `rio_read` returns, nor the count it returns, nor the bytes it leaves
in the buffer. -/
theorem rio_read_eintr_transparent (n : Nat) (usrbuf : List Nat) (errno : Nat)
    (s t : List ReadOutcome) (h : InsertsEINTR s t) :
    (rio_read t usrbuf n errno).map RioResult.countAndBuffer
      = (rio_read s usrbuf n errno).map RioResult.countAndBuffer :=
  rio_loop_insertsEINTR n h n 0 usrbuf errno []

/-- Claim C2 on a request of 4 bytes delivered two by two, with three
interruptions inserted. -/
theorem rio_read_eintr_transparent_witness :
    InsertsEINTR [ReadOutcome.data [1, 2], ReadOutcome.data [3, 4]]
        [ReadOutcome.fail EINTR, ReadOutcome.data [1, 2], ReadOutcome.fail EINTR,
          ReadOutcome.fail EINTR, ReadOutcome.data [3, 4]]
      ∧ (rio_read [ReadOutcome.fail EINTR, ReadOutcome.data [1, 2], ReadOutcome.fail EINTR,
          ReadOutcome.fail EINTR, ReadOutcome.data [3, 4]] [0, 0, 0, 0] 4 0).map
            RioResult.countAndBuffer
        = (rio_read [ReadOutcome.data [1, 2], ReadOutcome.data [3, 4]] [0, 0, 0, 0] 4 0).map
            RioResult.countAndBuffer :=
  ⟨.insert (.keep _ (.insert (.insert (.keep _ .nil)))),
    rio_read_eintr_transparent 4 [0, 0, 0, 0] 0 _ _
      (.insert (.keep _ (.insert (.insert (.keep _ .nil)))))⟩

theorem rio_read_of_deliveries (n : Nat) (ds : List (List Nat))
    (rest : List ReadOutcome) (usrbuf : List Nat) (errno : Nat)
    (hne : ∀ d ∈ ds, d ≠ []) (hsum : ds.flatten.length = n) :
    rio_read (ds.map ReadOutcome.data ++ rest) usrbuf n errno
      = some ⟨(n : Int), ds.flatten ++ usrbuf.drop n, errno, missingCounts n ds, rest⟩ := by
  have h := rio_loop_deliveries n rest errno ds n 0 usrbuf [] hne hsum (Nat.zero_le _)
  rw [rio_read, h, writeBytes_zero, hsum]
  simp

/-- Claim C3: for every `n` and every sequence `ds` of non-empty partial
deliveries that together bring exactly `n` bytes (no close and no error before
that), `rio_read` returns exactly `n`, the buffer holds the concatenation of
the deliveries in arrival order in its first `n` bytes, each `read` was asked
for exactly the number of bytes still missing, and the outcomes after the
deliveries are left unread. -/
theorem rio_read_accumulates_deliveries (n : Nat) (ds : List (List Nat))
    (rest : List ReadOutcome) (usrbuf : List Nat) (errno : Nat)
    (hne : ∀ d ∈ ds, d ≠ []) (hsum : ds.flatten.length = n) :
    rio_read (ds.map ReadOutcome.data ++ rest) usrbuf n errno
      = some ⟨(n : Int), ds.flatten ++ usrbuf.drop n, errno, missingCounts n ds, rest⟩ :=
  rio_read_of_deliveries n ds rest usrbuf errno hne hsum

/-- Claim C3 on a request of 4 bytes delivered as 1 byte, then 3 bytes. -/
theorem rio_read_accumulates_deliveries_witness :
    rio_read ([[1], [2, 3, 4]].map ReadOutcome.data ++ [ReadOutcome.data []]) [9, 9, 9, 9, 9] 4 0
      = some ⟨((4 : Nat) : Int), [[1], [2, 3, 4]].flatten ++ [9, 9, 9, 9, 9].drop 4, 0,
          missingCounts 4 [[1], [2, 3, 4]], [ReadOutcome.data []]⟩ :=
  rio_read_accumulates_deliveries 4 [[1], [2, 3, 4]] [ReadOutcome.data []] [9, 9, 9, 9, 9] 0
    (by decide) (by decide)

/-! ## Byte order -/

theorem bswap16_mod (v : Nat) : bswap16 v % 256 = v / 256 % 256 := by
  have h0 : v % 256 < 256 := Nat.mod_lt _ (by decide)
  have h1 : v / 256 % 256 < 256 := Nat.mod_lt _ (by decide)
  unfold bswap16
  generalize v % 256 = lo at h0 ⊢
  generalize v / 256 % 256 = hi at h1 ⊢
  omega

theorem bswap16_div (v : Nat) : bswap16 v / 256 = v % 256 := by
  have h0 : v % 256 < 256 := Nat.mod_lt _ (by decide)
  have h1 : v / 256 % 256 < 256 := Nat.mod_lt _ (by decide)
  unfold bswap16
  generalize v % 256 = lo at h0 ⊢
  generalize v / 256 % 256 = hi at h1 ⊢
  omega

theorem bswap16_bswap16 (v : Nat) : bswap16 (bswap16 v) = v % 65536 := by
  have h : bswap16 (bswap16 v) = bswap16 v % 256 * 256 + bswap16 v / 256 % 256 := rfl
  rw [h, bswap16_mod, bswap16_div]
  omega

theorem store16_htons (le : Bool) (code : Nat) :
    store16 le (htons le code) = [code / 256 % 256, code % 256] := by
  cases le
  · simp only [store16, htons, Bool.false_eq_true, if_false, List.cons.injEq, and_true]
    omega
  · simp only [store16, htons, if_true, bswap16_mod, bswap16_div, Nat.mod_mod]

theorem sendRequest_eq (le : Bool) (code : Nat) :
    sendRequest le code = [code / 256 % 256, code % 256] := by
  simp [sendRequest, store16_htons, REQUEST_LENGTH]

theorem ntohs_load16 (le : Bool) (buf : List Nat) (off : Nat) :
    ntohs le (load16 le buf off) = 256 * byteAt buf off + byteAt buf (off + 1) := by
  have h0 : byteAt buf off < 256 := Nat.mod_lt _ (by decide)
  have h1 : byteAt buf (off + 1) < 256 := Nat.mod_lt _ (by decide)
  cases le
  · simp only [ntohs, load16, Bool.false_eq_true, if_false]
    omega
  · simp only [ntohs, load16, if_true]
    generalize byteAt buf off = a at h0 ⊢
    generalize byteAt buf (off + 1) = b at h1 ⊢
    unfold bswap16
    omega

theorem ntohs_htons (le : Bool) (code : Nat) : ntohs le (htons le code) = code % 65536 := by
  cases le
  · simp only [ntohs, htons, Bool.false_eq_true, if_false]
    omega
  · simp only [ntohs, htons, if_true, bswap16_bswap16]

theorem decode_sendRequest (le le2 : Bool) (code : Nat) :
    ntohs le2 (load16 le2 (sendRequest le code) 0) = code % 65536 := by
  rw [ntohs_load16, sendRequest_eq]
  simp only [byteAt, List.getD_cons_zero, List.getD_cons_succ, Nat.zero_add]
  omega

theorem sendRequest_inj (le : Bool) (a b : Nat) (h : sendRequest le a = sendRequest le b) :
    a % 65536 = b % 65536 := by
  rw [sendRequest_eq, sendRequest_eq] at h
  simp only [List.cons.injEq, and_true] at h
  omega

/-! ## `attendToUser`: the loop -/

/-- One iteration of the loop of `attendToUser` on a key other than the quit key,
read while the game is on. -/
theorem attendToUser_loop_key (H : Headers) (le : Bool) (key : Int) (rest : List KeyEvent)
    (ws : List (List Nat)) (beeps : Nat) (hq : key ≠ H.QUIT_CHAR) :
    attendToUser_loop H le (⟨key, true⟩ :: rest) ws beeps
      = if key = ERR then attendToUser_loop H le rest ws beeps
        else if key = KEY_LEFT then
          attendToUser_loop H le rest (ws ++ [sendRequest le H.LEFT_REQUEST]) beeps
        else if key = KEY_RIGHT then
          attendToUser_loop H le rest (ws ++ [sendRequest le H.RIGHT_REQUEST]) beeps
        else if key = 10 ∨ key = 32 then
          attendToUser_loop H le rest (ws ++ [sendRequest le H.SHOOT_REQUEST]) beeps
        else attendToUser_loop H le rest ws (beeps + 1) := by
  simp only [attendToUser_loop, ne_eq, hq, not_false_eq_true, if_true, Bool.not_true,
    Bool.false_eq_true, if_false]
  split_ifs <;> simp_all

theorem attendToUser_loop_quit (H : Headers) (le : Bool) (e : KeyEvent) (rest : List KeyEvent)
    (ws : List (List Nat)) (beeps : Nat) (hq : e.key = H.QUIT_CHAR) :
    attendToUser_loop H le (e :: rest) ws beeps
      = some ⟨ws ++ [sendRequest le H.DISCONNECT_REQUEST], beeps, rest⟩ := by
  simp [attendToUser_loop, attendToUser_finish, hq]

theorem attendToUser_loop_game_over (H : Headers) (le : Bool) (e : KeyEvent)
    (rest : List KeyEvent) (ws : List (List Nat)) (beeps : Nat) (hq : e.key ≠ H.QUIT_CHAR)
    (hf : e.shouldContinueGame = false) :
    attendToUser_loop H le (e :: rest) ws beeps = some ⟨ws, beeps, rest⟩ := by
  simp [attendToUser_loop, attendToUser_finish, hq, hf]

theorem attendToUser_loop_live_keys (H : Headers) (le : Bool) (tail : List KeyEvent) :
    ∀ (pre : List KeyEvent) (ws : List (List Nat)) (beeps : Nat),
      (∀ x ∈ pre, x.key ≠ H.QUIT_CHAR ∧ x.shouldContinueGame = true) →
      ∃ sent beeps2, attendToUser_loop H le (pre ++ tail) ws beeps
          = attendToUser_loop H le tail (ws ++ sent) beeps2
        ∧ ∀ w ∈ sent, w = sendRequest le H.LEFT_REQUEST ∨ w = sendRequest le H.RIGHT_REQUEST
            ∨ w = sendRequest le H.SHOOT_REQUEST := by
  intro pre
  induction pre with
  | nil =>
      intro ws beeps _
      exact ⟨[], beeps, by simp, by simp⟩
  | cons x pre ih =>
      intro ws beeps hpre
      obtain ⟨hq, hf⟩ := hpre x (List.mem_cons_self _ _)
      have hpre2 : ∀ y ∈ pre, y.key ≠ H.QUIT_CHAR ∧ y.shouldContinueGame = true :=
        fun y hy => hpre y (List.mem_cons_of_mem _ hy)
      have hx : x = ⟨x.key, true⟩ := by
        cases x
        simp_all
      rw [hx, List.cons_append, attendToUser_loop_key H le x.key _ ws beeps hq]
      split_ifs
      · exact ih ws beeps hpre2
      · obtain ⟨sent, b2, h1, h2⟩ := ih (ws ++ [sendRequest le H.LEFT_REQUEST]) beeps hpre2
        refine ⟨sendRequest le H.LEFT_REQUEST :: sent, b2, by simpa using h1, ?_⟩
        intro w hw
        rcases List.mem_cons.mp hw with rfl | hw
        · exact Or.inl rfl
        · exact h2 w hw
      · obtain ⟨sent, b2, h1, h2⟩ := ih (ws ++ [sendRequest le H.RIGHT_REQUEST]) beeps hpre2
        refine ⟨sendRequest le H.RIGHT_REQUEST :: sent, b2, by simpa using h1, ?_⟩
        intro w hw
        rcases List.mem_cons.mp hw with rfl | hw
        · exact Or.inr (Or.inl rfl)
        · exact h2 w hw
      · obtain ⟨sent, b2, h1, h2⟩ := ih (ws ++ [sendRequest le H.SHOOT_REQUEST]) beeps hpre2
        refine ⟨sendRequest le H.SHOOT_REQUEST :: sent, b2, by simpa using h1, ?_⟩
        intro w hw
        rcases List.mem_cons.mp hw with rfl | hw
        · exact Or.inr (Or.inr rfl)
        · exact h2 w hw
      · exact ih ws (beeps + 1) hpre2

theorem attendToUser_loop_writes (H : Headers) (le : Bool) (P : List Nat → Prop)
    (hL : P (sendRequest le H.LEFT_REQUEST)) (hR : P (sendRequest le H.RIGHT_REQUEST))
    (hS : P (sendRequest le H.SHOOT_REQUEST)) (hD : P (sendRequest le H.DISCONNECT_REQUEST)) :
    ∀ (events : List KeyEvent) (ws : List (List Nat)) (beeps : Nat) (r : UserRun),
      attendToUser_loop H le events ws beeps = some r → (∀ w ∈ ws, P w) →
      ∀ w ∈ r.writes, P w := by
  intro events
  induction events with
  | nil => intro ws beeps r h; simp [attendToUser_loop] at h
  | cons e rest ih =>
      intro ws beeps r h hws
      have hext : ∀ c, P (sendRequest le c) → ∀ w ∈ ws ++ [sendRequest le c], P w := by
        intro c hc w hw
        rcases List.mem_append.mp hw with hw | hw
        · exact hws w hw
        · rw [List.mem_singleton.mp hw]; exact hc
      by_cases hq : e.key = H.QUIT_CHAR
      · rw [attendToUser_loop_quit H le e rest ws beeps hq] at h
        cases h
        exact hext _ hD
      · cases hf : e.shouldContinueGame with
        | false =>
            rw [attendToUser_loop_game_over H le e rest ws beeps hq hf] at h
            cases h
            exact hws
        | true =>
            have hx : e = ⟨e.key, true⟩ := by
              cases e
              simp_all
            rw [hx, attendToUser_loop_key H le e.key rest ws beeps hq] at h
            split_ifs at h
            · exact ih ws beeps r h hws
            · exact ih _ beeps r h (hext _ hL)
            · exact ih _ beeps r h (hext _ hR)
            · exact ih _ beeps r h (hext _ hS)
            · exact ih ws _ r h hws

/-! ## `attendToUser`: the claims -/

/-- Claim C4: the two bytes that `attendToUser` writes for a command code are
the code in network (big-endian) byte order, high byte first, whatever the
byte order of the host; decoding them with the same convention (`ntohs`), on a
receiver of either byte order, recovers the code, and so does `ntohs` of
`htons`; this for every 16-bit code value.  Every byte sequence written by a
run of `attendToUser` is that encoding of one of the four command codes. -/
theorem attendToUser_requests_network_order (H : Headers) (le : Bool) (code : Nat)
    (hcode : code < 65536) (events : List KeyEvent) (r : UserRun)
    (hrun : attendToUser H le events = some r) :
    (sendRequest le code = [code / 256, code % 256]
      ∧ (∀ le2, ntohs le2 (load16 le2 (sendRequest le code) 0) = code)
      ∧ ntohs le (htons le code) = code)
    ∧ ∀ w ∈ r.writes, ∃ c, (c = H.LEFT_REQUEST ∨ c = H.RIGHT_REQUEST ∨ c = H.SHOOT_REQUEST
          ∨ c = H.DISCONNECT_REQUEST)
        ∧ w = sendRequest le c ∧ w = [c / 256 % 256, c % 256] := by
  refine ⟨⟨?_, ?_, ?_⟩, ?_⟩
  · rw [sendRequest_eq, Nat.mod_eq_of_lt (show code / 256 < 256 by omega)]
  · intro le2
    rw [decode_sendRequest, Nat.mod_eq_of_lt hcode]
  · rw [ntohs_htons, Nat.mod_eq_of_lt hcode]
  · exact attendToUser_loop_writes H le
      (fun w => ∃ c, (c = H.LEFT_REQUEST ∨ c = H.RIGHT_REQUEST ∨ c = H.SHOOT_REQUEST
          ∨ c = H.DISCONNECT_REQUEST) ∧ w = sendRequest le c ∧ w = [c / 256 % 256, c % 256])
      ⟨_, Or.inl rfl, rfl, sendRequest_eq _ _⟩
      ⟨_, Or.inr (Or.inl rfl), rfl, sendRequest_eq _ _⟩
      ⟨_, Or.inr (Or.inr (Or.inl rfl)), rfl, sendRequest_eq _ _⟩
      ⟨_, Or.inr (Or.inr (Or.inr rfl)), rfl, sendRequest_eq _ _⟩
      events [] 0 r hrun (by simp)

/-- Claim C4 at the code `0x6c72` on a little-endian host, with the run of
`exampleHeaders` on the keys left, quit. -/
theorem attendToUser_requests_network_order_witness :
    (sendRequest true 0x6c72 = [0x6c72 / 256, 0x6c72 % 256]
      ∧ (∀ le2, ntohs le2 (load16 le2 (sendRequest true 0x6c72) 0) = 0x6c72)
      ∧ ntohs true (htons true 0x6c72) = 0x6c72)
    ∧ ∀ w ∈ [[108, 108], [100, 100]], ∃ c,
        (c = exampleHeaders.LEFT_REQUEST ∨ c = exampleHeaders.RIGHT_REQUEST
          ∨ c = exampleHeaders.SHOOT_REQUEST ∨ c = exampleHeaders.DISCONNECT_REQUEST)
        ∧ w = sendRequest true c ∧ w = [c / 256 % 256, c % 256] :=
  attendToUser_requests_network_order exampleHeaders true 0x6c72 (by decide)
    [⟨KEY_LEFT, true⟩, ⟨27, true⟩] ⟨[[108, 108], [100, 100]], 0, []⟩ (by decide)

theorem attendToUser_loop_live_run (H : Headers) (le : Bool) (tail : List KeyEvent) :
    ∀ (pre : List KeyEvent) (ws : List (List Nat)) (beeps : Nat),
      (∀ x ∈ pre, x.key ≠ H.QUIT_CHAR ∧ x.shouldContinueGame = true) →
      attendToUser_loop H le (pre ++ tail) ws beeps
        = attendToUser_loop H le tail
            (ws ++ pre.flatMap fun x =>
              if x.key = KEY_LEFT then [sendRequest le H.LEFT_REQUEST]
              else if x.key = KEY_RIGHT then [sendRequest le H.RIGHT_REQUEST]
              else if x.key = 10 ∨ x.key = 32 then [sendRequest le H.SHOOT_REQUEST]
              else [])
            (beeps + (pre.filter fun x =>
              decide (x.key ≠ ERR ∧ x.key ≠ KEY_LEFT ∧ x.key ≠ KEY_RIGHT ∧ x.key ≠ 10
                ∧ x.key ≠ 32)).length) := by
  intro pre
  induction pre with
  | nil => intro ws beeps _; simp
  | cons x pre ih =>
      intro ws beeps hpre
      obtain ⟨hq, hf⟩ := hpre x (List.mem_cons_self _ _)
      have hpre2 : ∀ y ∈ pre, y.key ≠ H.QUIT_CHAR ∧ y.shouldContinueGame = true :=
        fun y hy => hpre y (List.mem_cons_of_mem _ hy)
      have hx : x = ⟨x.key, true⟩ := by
        cases x
        simp_all
      rw [List.cons_append]
      conv_lhs => rw [hx]
      rw [attendToUser_loop_key H le x.key _ ws beeps hq]
      by_cases h1 : x.key = ERR
      · have h2 : x.key ≠ KEY_LEFT := by rw [h1]; decide
        have h3 : x.key ≠ KEY_RIGHT := by rw [h1]; decide
        have h4 : x.key ≠ 10 := by rw [h1]; decide
        have h5 : x.key ≠ 32 := by rw [h1]; decide
        rw [if_pos h1, ih ws beeps hpre2]
        simp [List.flatMap_cons, List.filter_cons, h1, ERR, KEY_LEFT, KEY_RIGHT]
      · rw [if_neg h1]
        by_cases h2 : x.key = KEY_LEFT
        · rw [if_pos h2, ih _ beeps hpre2]
          simp [List.flatMap_cons, List.filter_cons, h2, KEY_LEFT, KEY_RIGHT]
        · rw [if_neg h2]
          by_cases h3 : x.key = KEY_RIGHT
          · rw [if_pos h3, ih _ beeps hpre2]
            simp [List.flatMap_cons, List.filter_cons, h3, KEY_LEFT, KEY_RIGHT]
          · rw [if_neg h3]
            by_cases h4 : x.key = 10 ∨ x.key = 32
            · rw [if_pos h4, ih _ beeps hpre2]
              have h45 : ¬ (¬ x.key = 10 ∧ ¬ x.key = 32) := by
                rintro ⟨h6, h7⟩
                exact h4.elim h6 h7
              simp [List.flatMap_cons, List.filter_cons, h2, h3, h4, h45]
            · rw [if_neg h4, ih _ (beeps + 1) hpre2]
              have h6 : x.key ≠ 10 := fun h => h4 (Or.inl h)
              have h7 : x.key ≠ 32 := fun h => h4 (Or.inr h)
              simp [List.flatMap_cons, List.filter_cons, h1, h2, h3, h4, h6, h7]
              congr 1
              omega

/-- Claim C5: in every run of `attendToUser` that ends (at a quit key, or at a
key at which the liveness flag is found cleared), for the keys `pre` that are
read before that while the game is still on and that are not the quit key, the
byte sequences written to the server are, key by key and in the order of the
keys: exactly one `LEFT_REQUEST` for `KEY_LEFT`, exactly one `RIGHT_REQUEST`
for `KEY_RIGHT`, exactly one `SHOOT_REQUEST` for newline (10) and for space
(32) alike, and nothing for every other key, the timeout value `ERR`
included; the only other write is the `DISCONNECT_REQUEST` of a run that ends
at a quit key.  The keys other than these five and `ERR` are the ones that
beep, and the keys after the end of the run are left unread. -/
theorem attendToUser_key_dispatch (H : Headers) (le : Bool) (pre post : List KeyEvent)
    (e : KeyEvent)
    (hpre : ∀ x ∈ pre, x.key ≠ H.QUIT_CHAR ∧ x.shouldContinueGame = true)
    (hend : e.key = H.QUIT_CHAR ∨ e.shouldContinueGame = false) :
    attendToUser H le (pre ++ e :: post)
      = some ⟨(pre.flatMap fun x =>
            if x.key = KEY_LEFT then [sendRequest le H.LEFT_REQUEST]
            else if x.key = KEY_RIGHT then [sendRequest le H.RIGHT_REQUEST]
            else if x.key = 10 ∨ x.key = 32 then [sendRequest le H.SHOOT_REQUEST]
            else [])
          ++ (if e.key = H.QUIT_CHAR then [sendRequest le H.DISCONNECT_REQUEST] else []),
        (pre.filter fun x =>
          decide (x.key ≠ ERR ∧ x.key ≠ KEY_LEFT ∧ x.key ≠ KEY_RIGHT ∧ x.key ≠ 10
            ∧ x.key ≠ 32)).length,
        post⟩ := by
  rw [attendToUser, attendToUser_loop_live_run H le (e :: post) pre [] 0 hpre]
  by_cases hq : e.key = H.QUIT_CHAR
  · rw [attendToUser_loop_quit H le e post _ _ hq, if_pos hq]
    simp
  · have hf : e.shouldContinueGame = false := hend.resolve_left hq
    rw [attendToUser_loop_game_over H le e post _ _ hq hf, if_neg hq]
    simp

/-- Claim C5 on the keys left, right, space, newline, `x`, timeout, quit, left
with the constants of `exampleHeaders`: the run writes the left, right, shoot,
shoot and disconnect requests, beeps once and leaves the last key unread. -/
theorem attendToUser_key_dispatch_witness :
    attendToUser exampleHeaders true
        ([⟨KEY_LEFT, true⟩, ⟨KEY_RIGHT, true⟩, ⟨32, true⟩, ⟨10, true⟩, ⟨120, true⟩, ⟨ERR, true⟩]
          ++ ⟨27, true⟩ :: [⟨KEY_LEFT, true⟩])
      = some ⟨[[108, 108], [114, 114], [115, 115], [115, 115], [100, 100]], 1,
          [⟨KEY_LEFT, true⟩]⟩ :=
  (attendToUser_key_dispatch exampleHeaders true
    [⟨KEY_LEFT, true⟩, ⟨KEY_RIGHT, true⟩, ⟨32, true⟩, ⟨10, true⟩, ⟨120, true⟩, ⟨ERR, true⟩]
    [⟨KEY_LEFT, true⟩] ⟨27, true⟩ (by decide) (Or.inl (by decide))).trans (by decide)

/-- Claim C6: when the codes of the three other commands differ from the
disconnect code, a run of `attendToUser` that reads the quit key, after keys
`pre` read while the game is on, returns having written the
`DISCONNECT_REQUEST` exactly once, as its last write, and leaves every key
after that first quit key (`post`, further quit keys included) unread; a run
that ends because the liveness flag is found cleared at a key that is not the
quit key returns without having written any `DISCONNECT_REQUEST`. -/
theorem attendToUser_disconnect_once (H : Headers) (le : Bool) (pre post : List KeyEvent)
    (e : KeyEvent)
    (hpre : ∀ x ∈ pre, x.key ≠ H.QUIT_CHAR ∧ x.shouldContinueGame = true)
    (hL : H.LEFT_REQUEST % 65536 ≠ H.DISCONNECT_REQUEST % 65536)
    (hR : H.RIGHT_REQUEST % 65536 ≠ H.DISCONNECT_REQUEST % 65536)
    (hS : H.SHOOT_REQUEST % 65536 ≠ H.DISCONNECT_REQUEST % 65536) :
    (e.key = H.QUIT_CHAR →
      ∃ r sent, attendToUser H le (pre ++ e :: post) = some r
        ∧ r.writes = sent ++ [sendRequest le H.DISCONNECT_REQUEST]
        ∧ sendRequest le H.DISCONNECT_REQUEST ∉ sent
        ∧ r.writes.count (sendRequest le H.DISCONNECT_REQUEST) = 1
        ∧ r.unread = post)
    ∧ (e.key ≠ H.QUIT_CHAR → e.shouldContinueGame = false →
      ∃ r, attendToUser H le (pre ++ e :: post) = some r
        ∧ sendRequest le H.DISCONNECT_REQUEST ∉ r.writes
        ∧ r.unread = post) := by
  obtain ⟨sent, b2, hrun, hsent⟩ := attendToUser_loop_live_keys H le (e :: post) pre [] 0 hpre
  have hnot : sendRequest le H.DISCONNECT_REQUEST ∉ sent := by
    intro hmem
    rcases hsent _ hmem with h | h | h
    · exact hL (sendRequest_inj le _ _ h).symm
    · exact hR (sendRequest_inj le _ _ h).symm
    · exact hS (sendRequest_inj le _ _ h).symm
  constructor
  · intro hq
    refine ⟨⟨[] ++ sent ++ [sendRequest le H.DISCONNECT_REQUEST], b2, post⟩, sent, ?_, by simp,
      hnot, ?_, rfl⟩
    · rw [attendToUser, hrun, attendToUser_loop_quit H le e post _ b2 hq]
    · simp [List.count_append, List.count_eq_zero_of_not_mem hnot]
  · intro hq hf
    refine ⟨⟨[] ++ sent, b2, post⟩, ?_, by simpa using hnot, rfl⟩
    rw [attendToUser, hrun, attendToUser_loop_game_over H le e post _ b2 hq hf]

/-- Claim C6 on the keys left, quit, quit, right with the constants of
`exampleHeaders`: the second quit key and the key after it stay unread. -/
theorem attendToUser_disconnect_once_witness :
    ∃ r sent, attendToUser exampleHeaders true
          ([⟨KEY_LEFT, true⟩] ++ ⟨27, true⟩ :: [⟨27, true⟩, ⟨KEY_RIGHT, true⟩]) = some r
      ∧ r.writes = sent ++ [sendRequest true exampleHeaders.DISCONNECT_REQUEST]
      ∧ sendRequest true exampleHeaders.DISCONNECT_REQUEST ∉ sent
      ∧ r.writes.count (sendRequest true exampleHeaders.DISCONNECT_REQUEST) = 1
      ∧ r.unread = [⟨27, true⟩, ⟨KEY_RIGHT, true⟩] :=
  (attendToUser_disconnect_once exampleHeaders true [⟨KEY_LEFT, true⟩]
    [⟨27, true⟩, ⟨KEY_RIGHT, true⟩] ⟨27, true⟩ (by decide) (by decide) (by decide)
    (by decide)).1 rfl

/-! ## `attendToServer`: reading one frame -/

theorem toInt32_of_lt (n : Nat) (h : n < 2147483648) : toInt32 (n : Int) = (n : Int) := by
  unfold toInt32
  omega

theorem serverIteration_frame (H : Headers) (le : Bool) (s : ServerState)
    (ds : List (List Nat)) (rest : List ReadOutcome)
    (hpos : 0 < H.MAX_UPDATE_LEN) (hmax : H.MAX_UPDATE_LEN < 2147483648)
    (hupd : s.update.length = H.MAX_UPDATE_LEN)
    (hne : ∀ d ∈ ds, d ≠ []) (hsum : ds.flatten.length = H.MAX_UPDATE_LEN)
    (hscript : s.script = ds.map ReadOutcome.data ++ rest) :
    serverIteration H le s
      = some (doUpdate H le { s with update := ds.flatten, script := rest }) := by
  have hdrop : (writeBytes s.update 0 [0]).drop H.MAX_UPDATE_LEN = [] := by
    apply List.drop_of_length_le
    simp [writeBytes]
    omega
  have hret : ¬ (toInt32 (H.MAX_UPDATE_LEN : Int) = -1) := by
    rw [toInt32_of_lt _ hmax]
    omega
  simp only [serverIteration, hscript,
    rio_read_of_deliveries H.MAX_UPDATE_LEN ds rest _ s.errno hne hsum, hdrop, List.append_nil,
    hret, false_and, if_false]

/-! ## `attendToServer`: what holds before the first WholeBoard frame -/

theorem length_writeBytes_eq (buf : List Nat) (off : Nat) (bs : List Nat)
    (h : off + bs.length ≤ buf.length) : (writeBytes buf off bs).length = buf.length := by
  simp [writeBytes, List.length_take, List.length_drop]
  omega

theorem rio_loop_buf_length (n : Nat) :
    ∀ (script : List ReadOutcome) (nleft bufp : Nat) (buf : List Nat) (e : Nat)
      (log : List Nat) (r : RioResult),
      rio_loop n script nleft bufp buf e log = some r → bufp + nleft ≤ buf.length →
      r.buf.length = buf.length := by
  intro script
  induction script with
  | nil =>
      intro nleft bufp buf e log r h _
      cases nleft with
      | zero => simp [rio_loop] at h; rw [← h]
      | succ k => simp [rio_loop] at h
  | cons o rest ih =>
      intro nleft bufp buf e log r h hb
      rcases Nat.eq_zero_or_pos nleft with rfl | hpos
      · rw [rio_loop_zero] at h
        cases h
        rfl
      · cases o with
        | fail e0 =>
            by_cases he : e0 = EINTR
            · subst he
              rw [rio_loop_eintr n rest nleft bufp buf e log hpos] at h
              exact ih _ _ _ _ _ r h hb
            · rw [rio_loop_fail n e0 rest nleft bufp buf e log hpos he] at h
              cases h
              rfl
        | data d =>
            by_cases hd : d = []
            · subst hd
              rw [rio_loop_eof n rest nleft bufp buf e log hpos] at h
              cases h
              rfl
            · by_cases hlt : d.length < nleft
              · rw [rio_loop_some_bytes n d rest nleft bufp buf e log hd hlt] at h
                have hlen := length_writeBytes_eq buf bufp d (by omega)
                rw [← hlen]
                exact ih _ _ _ _ _ r h (by omega)
              · rw [rio_loop_fill n d rest nleft bufp buf e log hpos (by omega)] at h
                cases h
                exact length_writeBytes_eq buf bufp _ (by
                  simp only [List.length_take]
                  omega)

theorem doUpdate_update (H : Headers) (le : Bool) (s : ServerState) :
    (doUpdate H le s).update = s.update := by
  simp only [doUpdate]
  split_ifs <;> rfl

theorem doUpdate_bottommost (H : Headers) (le : Bool) (s : ServerState)
    (h : byteAt s.update 0 ≠ H.BEGIN_WHOLE_BOARD_UPDATE) :
    (doUpdate H le s).bottommostInvaderRankRow = s.bottommostInvaderRankRow := by
  simp only [doUpdate]
  split_ifs <;> rfl

theorem serverIteration_invariant (H : Headers) (le : Bool) (s s1 : ServerState)
    (hpos : 0 < H.MAX_UPDATE_LEN) (h : serverIteration H le s = some s1)
    (hupd : s.update.length = H.MAX_UPDATE_LEN)
    (htag : byteAt s1.update 0 ≠ H.BEGIN_WHOLE_BOARD_UPDATE) :
    s1.update.length = H.MAX_UPDATE_LEN
      ∧ s1.bottommostInvaderRankRow = s.bottommostInvaderRankRow := by
  unfold serverIteration at h
  cases hr : rio_read s.script (writeBytes s.update 0 [0]) H.MAX_UPDATE_LEN s.errno with
  | none => simp [hr] at h
  | some r =>
      have hlen0 : (writeBytes s.update 0 [0]).length = s.update.length :=
        length_writeBytes_eq _ _ _ (by simp; omega)
      have hlen : r.buf.length = H.MAX_UPDATE_LEN := by
        have := rio_loop_buf_length H.MAX_UPDATE_LEN s.script H.MAX_UPDATE_LEN 0
          (writeBytes s.update 0 [0]) s.errno [] r hr (by omega)
        omega
      simp only [hr] at h
      split_ifs at h
      · cases h
        exact ⟨hlen, rfl⟩
      · cases h
        rw [doUpdate_update] at htag
        exact ⟨by rw [doUpdate_update]; exact hlen, doUpdate_bottommost H le _ htag⟩

theorem BeforeWholeBoard.invariant {H : Headers} {le : Bool} {s : ServerState}
    (hpos : 0 < H.MAX_UPDATE_LEN) (h : BeforeWholeBoard H le s) :
    s.update.length = H.MAX_UPDATE_LEN
      ∧ s.bottommostInvaderRankRow = toShort H.INIIAL_BOTTOMMOST_INVADER_RANK_ROW := by
  induction h with
  | entry update left errno script hlen => exact ⟨hlen, rfl⟩
  | @iteration s s1 _ hstep htag ih =>
      obtain ⟨h1, h2⟩ := serverIteration_invariant H le s s1 hpos hstep ih.1 htag
      exact ⟨h1, h2.trans ih.2⟩

/-! ## `attendToServer`: the claims -/

/-- Claim C7, as stated, fails: with the constants of `exampleHeaders`, a
session whose first frame is an InvaderKilled frame (rank 1, file 2), followed
by a Disconnect frame, ends with "BOOM" drawn and erased at row 8, column 85,
the position computed from the initial bottommost row 8 and from the value 77
that the unassigned `leftMostInvaderCol` happens to hold; no error is
raised. -/
theorem attendToServer_invaderKilled_first_counterexample :
    (attendToServer exampleHeaders true 2 (List.replicate 48 0) 77 0
        [ReadOutcome.data ([107, 107, 0, 1, 0, 2] ++ List.replicate 42 0),
          ReadOutcome.data ([68] ++ List.replicate 47 0)]).map
      (fun s => (s.events, s.shouldContinueGame))
      = some ([Event.boom 8 85, Event.unboom 8 85], false) := by
  decide

/-- Claim C7, amended: when `attendToServer` reads an InvaderKilled frame
(arriving in the deliveries `ds`) before any WholeBoard frame has been
processed, it raises no error and does not end the session: the iteration
completes, the liveness flag, the hit counter and the formation variables are
unchanged, and "BOOM" is drawn and erased at some column of the row computed
from the frame's rank field and `INIIAL_BOTTOMMOST_INVADER_RANK_ROW`.  The
`case` labels of the `switch` are distinct and `MAX_UPDATE_LEN` is a positive
`int`. -/
theorem attendToServer_invaderKilled_before_wholeBoard (H : Headers) (le : Bool)
    (s : ServerState) (ds : List (List Nat)) (rest : List ReadOutcome)
    (hpos : 0 < H.MAX_UPDATE_LEN) (hmax : H.MAX_UPDATE_LEN < 2147483648)
    (hlabels : H.caseLabels.Nodup)
    (hs : BeforeWholeBoard H le s)
    (hne : ∀ d ∈ ds, d ≠ []) (hsum : ds.flatten.length = H.MAX_UPDATE_LEN)
    (hscript : s.script = ds.map ReadOutcome.data ++ rest)
    (htag : byteAt ds.flatten 0 = H.INVADER_KILLED_UPDATE) :
    ∃ s1 col, serverIteration H le s = some s1
      ∧ s1.events = s.events ++
          [Event.boom (toShort (H.getInvaderRowGivenRankAndBottommostRankRow
              (toShort (be16 ds.flatten 2)) (toShort H.INIIAL_BOTTOMMOST_INVADER_RANK_ROW))) col,
            Event.unboom (toShort (H.getInvaderRowGivenRankAndBottommostRankRow
              (toShort (be16 ds.flatten 2)) (toShort H.INIIAL_BOTTOMMOST_INVADER_RANK_ROW))) col]
      ∧ s1.shouldContinueGame = s.shouldContinueGame
      ∧ s1.ouchCount = s.ouchCount
      ∧ s1.bottommostInvaderRankRow = s.bottommostInvaderRankRow
      ∧ s1.leftMostInvaderCol = s.leftMostInvaderCol
      ∧ s1.script = rest := by
  simp only [Headers.caseLabels, List.nodup_cons, List.mem_cons, List.mem_singleton,
    not_or, List.not_mem_nil, not_false_eq_true, List.nodup_nil, and_true] at hlabels
  obtain ⟨⟨-, -, -, -, -, h1, -⟩, ⟨-, -, -, -, h2, -⟩, ⟨-, -, -, h3, -⟩, ⟨-, -, h4, -⟩,
    ⟨-, h5, -⟩, ⟨h6, -⟩, -⟩ := hlabels
  obtain ⟨hupd, hinit⟩ := hs.invariant hpos
  refine ⟨_, toShort (H.getInvadersLeftmostColGivenFileAndLeftmostCol
      (toShort (be16 ds.flatten 4)) s.leftMostInvaderCol),
    serverIteration_frame H le s ds rest hpos hmax hupd hne hsum hscript, ?_⟩
  simp only [doUpdate, htag, Ne.symm h1, Ne.symm h2, Ne.symm h3, Ne.symm h4, Ne.symm h5,
    Ne.symm h6, if_false, if_true, handleInvaderKilled, ntohs_load16, be16, SIZE16, hinit]
  simp

/-- Claim C7 (amended) at the start of a session with the constants of
`exampleHeaders`: the first frame is an InvaderKilled frame for rank 1,
file 2. -/
theorem attendToServer_invaderKilled_before_wholeBoard_witness :
    ∃ s1 col,
      serverIteration exampleHeaders true
          (ServerState.init exampleHeaders (List.replicate 48 0) 77 0
            ([[107, 107, 0, 1, 0, 2] ++ List.replicate 42 0].map ReadOutcome.data
              ++ [ReadOutcome.data []])) = some s1
      ∧ s1.events = [] ++
          [Event.boom (toShort (exampleHeaders.getInvaderRowGivenRankAndBottommostRankRow
              (toShort (be16 [[107, 107, 0, 1, 0, 2] ++ List.replicate 42 0].flatten 2))
              (toShort exampleHeaders.INIIAL_BOTTOMMOST_INVADER_RANK_ROW))) col,
            Event.unboom (toShort (exampleHeaders.getInvaderRowGivenRankAndBottommostRankRow
              (toShort (be16 [[107, 107, 0, 1, 0, 2] ++ List.replicate 42 0].flatten 2))
              (toShort exampleHeaders.INIIAL_BOTTOMMOST_INVADER_RANK_ROW))) col]
      ∧ s1.shouldContinueGame = true
      ∧ s1.ouchCount = 0
      ∧ s1.bottommostInvaderRankRow = toShort exampleHeaders.INIIAL_BOTTOMMOST_INVADER_RANK_ROW
      ∧ s1.leftMostInvaderCol = 77
      ∧ s1.script = [ReadOutcome.data []] :=
  attendToServer_invaderKilled_before_wholeBoard exampleHeaders true
    (ServerState.init exampleHeaders (List.replicate 48 0) 77 0
      ([[107, 107, 0, 1, 0, 2] ++ List.replicate 42 0].map ReadOutcome.data
        ++ [ReadOutcome.data []]))
    [[107, 107, 0, 1, 0, 2] ++ List.replicate 42 0] [ReadOutcome.data []]
    (by decide) (by decide) (by decide) (BeforeWholeBoard.entry _ _ _ _ (by decide))
    (by decide) (by decide) rfl (by decide)

/-! ## `attendToServer`: the `switch` -/

theorem doUpdate_connectionDenied (H : Headers) (le : Bool) (s : ServerState)
    (htag : byteAt s.update 0 = H.CONNECTION_DENIED_UPDATE) :
    doUpdate H le s = { s with events := s.events ++ [Event.denied] } := by
  simp [doUpdate, htag]

theorem doUpdate_disconnect (H : Headers) (le : Bool) (s : ServerState)
    (hlabels : H.caseLabels.Nodup) (htag : byteAt s.update 0 = H.DISCONNECT_UPDATE) :
    doUpdate H le s = { s with shouldContinueGame := false } := by
  simp only [Headers.caseLabels, List.nodup_cons, List.mem_cons, List.mem_singleton,
    not_or, List.not_mem_nil, not_false_eq_true, List.nodup_nil, and_true] at hlabels
  obtain ⟨⟨h1, -⟩, -⟩ := hlabels
  simp [doUpdate, htag, Ne.symm h1]

theorem doUpdate_won (H : Headers) (le : Bool) (s : ServerState)
    (hlabels : H.caseLabels.Nodup) (htag : byteAt s.update 0 = H.HAVE_WON_UPDATE) :
    doUpdate H le s
      = { s with shouldContinueGame := false, events := s.events ++ [Event.won] } := by
  simp only [Headers.caseLabels, List.nodup_cons, List.mem_cons, List.mem_singleton,
    not_or, List.not_mem_nil, not_false_eq_true, List.nodup_nil, and_true] at hlabels
  obtain ⟨⟨-, -, -, h1, -⟩, ⟨-, -, h2, -⟩, ⟨-, h3, -⟩, ⟨h4, -⟩, -⟩ := hlabels
  simp [doUpdate, htag, Ne.symm h1, Ne.symm h2, Ne.symm h3, Ne.symm h4]

theorem doUpdate_defenderKilled (H : Headers) (le : Bool) (s : ServerState)
    (hlabels : H.caseLabels.Nodup) (htag : byteAt s.update 0 = H.DEFENDER_KILLED_UPDATE) :
    doUpdate H le s
      = { s with
          ouchCount := toInt32 (s.ouchCount + 1)
          events := s.events ++ [Event.ouchCount (toInt32 (s.ouchCount + 1))] } := by
  simp only [Headers.caseLabels, List.nodup_cons, List.mem_cons, List.mem_singleton,
    not_or, List.not_mem_nil, not_false_eq_true, List.nodup_nil, and_true] at hlabels
  obtain ⟨⟨-, -, -, -, h1, -⟩, ⟨-, -, -, h2, -⟩, ⟨-, -, h3, -⟩, ⟨-, h4, -⟩, ⟨h5, -⟩, -⟩ :=
    hlabels
  simp [doUpdate, htag, Ne.symm h1, Ne.symm h2, Ne.symm h3, Ne.symm h4, Ne.symm h5]

theorem doUpdate_unrecognized (H : Headers) (le : Bool) (s : ServerState)
    (htag : byteAt s.update 0 ∉ H.caseLabels) :
    doUpdate H le s
      = { s with events := s.events ++ [Event.unknownChar (charValue (byteAt s.update 0))] } := by
  simp only [Headers.caseLabels, List.mem_cons, List.mem_singleton, not_or,
    List.not_mem_nil, not_false_eq_true, and_true] at htag
  obtain ⟨h1, h2, h3, h4, h5, h6, h7, h8⟩ := htag
  simp [doUpdate, h1, h2, h3, h4, h5, h6, h7, h8]

theorem doUpdate_shouldContinueGame (H : Headers) (le : Bool) (s : ServerState)
    (h1 : byteAt s.update 0 ≠ H.DISCONNECT_UPDATE)
    (h2 : byteAt s.update 0 ≠ H.HAVE_WON_UPDATE) :
    (doUpdate H le s).shouldContinueGame = s.shouldContinueGame := by
  simp only [doUpdate]
  split_ifs <;> rfl

theorem doUpdate_ouchCount (H : Headers) (le : Bool) (s : ServerState)
    (h : byteAt s.update 0 ≠ H.DEFENDER_KILLED_UPDATE) :
    (doUpdate H le s).ouchCount = s.ouchCount := by
  simp only [doUpdate]
  split_ifs <;> rfl

theorem attendToServer_loop_ended (H : Headers) (le : Bool) (fuel : Nat) (s : ServerState)
    (h : s.shouldContinueGame = false) : attendToServer_loop H le fuel s = some s := by
  cases fuel <;> simp [attendToServer_loop, h]

/-! ## `attendToServer`: denial, close and liveness -/

/-- Claim C13 fails on the code.  With the constants of `exampleHeaders`, in a
session whose frames are ConnectionDenied, Beep, Disconnect, the liveness flag
is still set after the iteration that handles the ConnectionDenied frame, and
the loop goes on to read and process the Beep frame; it ends only with the
Disconnect frame.  In general the ConnectionDenied case of the `switch` leaves
`shouldContinueGame` as it is. -/
theorem attendToServer_connectionDenied_continues :
    (serverIterations exampleHeaders true 1
        (ServerState.init exampleHeaders (List.replicate 48 0) 0 0
          [ReadOutcome.data (exampleFrame 67), ReadOutcome.data (exampleFrame 66),
            ReadOutcome.data (exampleFrame 68)])).map
      (fun s => (s.shouldContinueGame, s.events, s.script.length))
      = some (true, [Event.denied], 2)
    ∧ (attendToServer exampleHeaders true 3 (List.replicate 48 0) 0 0
        [ReadOutcome.data (exampleFrame 67), ReadOutcome.data (exampleFrame 66),
          ReadOutcome.data (exampleFrame 68)]).map
      (fun s => (s.shouldContinueGame, s.events, s.script.length))
      = some (false, [Event.denied, Event.beep], 0)
    ∧ ∀ (H : Headers) (le : Bool) (s : ServerState),
        byteAt s.update 0 = H.CONNECTION_DENIED_UPDATE →
        (doUpdate H le s).shouldContinueGame = s.shouldContinueGame := by
  refine ⟨by decide, by decide, ?_⟩
  intro H le s htag
  rw [doUpdate_connectionDenied H le s htag]

theorem serverIteration_eof (H : Headers) (le : Bool) (s : ServerState)
    (rest : List ReadOutcome) (hpos : 0 < H.MAX_UPDATE_LEN)
    (hscript : s.script = ReadOutcome.data [] :: rest) :
    serverIteration H le s
      = some (doUpdate H le { s with update := writeBytes s.update 0 [0], script := rest }) := by
  have hread : rio_read (ReadOutcome.data [] :: rest) (writeBytes s.update 0 [0])
      H.MAX_UPDATE_LEN s.errno
      = some ⟨(H.MAX_UPDATE_LEN : Int) - (H.MAX_UPDATE_LEN : Int), writeBytes s.update 0 [0],
          s.errno, [] ++ [H.MAX_UPDATE_LEN], rest⟩ :=
    rio_loop_eof H.MAX_UPDATE_LEN rest H.MAX_UPDATE_LEN 0 _ s.errno [] hpos
  have hret : ¬ (toInt32 ((H.MAX_UPDATE_LEN : Int) - (H.MAX_UPDATE_LEN : Int)) = -1) := by
    rw [Int.sub_self]
    decide
  simp only [serverIteration, hscript, hread, hret, false_and, if_false]

theorem byteAt_writeBytes_zero (buf : List Nat) : byteAt (writeBytes buf 0 [0]) 0 = 0 := by
  simp [byteAt, writeBytes]

/-- Claim C14, as stated, fails: with the constants of `exampleHeaders`, when
the peer has closed the stream and the reads for the next frame return 0, the
first two iterations of `attendToServer` each report the unknown character 0,
the liveness flag is still set after them, and the second iteration has read
again. -/
theorem attendToServer_peer_close_counterexample :
    (serverIterations exampleHeaders true 2
        (ServerState.init exampleHeaders (List.replicate 48 0) 0 0
          [ReadOutcome.data [], ReadOutcome.data []])).map
      (fun s => (s.shouldContinueGame, s.events, s.script))
      = some (true, [Event.unknownChar 0, Event.unknownChar 0], []) := by
  decide

/-- Claim C14, amended: when the first `read` for the next frame returns 0 (the
peer closed the stream), `attendToServer` does not treat it as a closed
connection and does not terminate the session: `rio_read` returns 0, the zero
byte stored in `update[0]` before the read is taken as the tag of an update
(an unrecognized one, no `case` label being 0, which only produces the
warning), the liveness flag and the hit counter are unchanged, and a loop that
was running goes on with its next iteration, which reads again. -/
theorem attendToServer_peer_close_goes_on (H : Headers) (le : Bool) (s : ServerState)
    (rest : List ReadOutcome) (hpos : 0 < H.MAX_UPDATE_LEN) (hzero : 0 ∉ H.caseLabels)
    (hscript : s.script = ReadOutcome.data [] :: rest) :
    ∃ s1, serverIteration H le s = some s1
      ∧ s1.shouldContinueGame = s.shouldContinueGame
      ∧ s1.events = s.events ++ [Event.unknownChar 0]
      ∧ s1.ouchCount = s.ouchCount
      ∧ s1.script = rest
      ∧ (s.shouldContinueGame = true →
          ∀ count, serverIterations H le (count + 1) s = serverIterations H le count s1) := by
  have hstep := serverIteration_eof H le s rest hpos hscript
  have htag : byteAt ({ s with update := writeBytes s.update 0 [0], script := rest } :
      ServerState).update 0 ∉ H.caseLabels := by
    rw [show ({ s with update := writeBytes s.update 0 [0], script := rest } :
      ServerState).update = writeBytes s.update 0 [0] from rfl, byteAt_writeBytes_zero]
    exact hzero
  rw [doUpdate_unrecognized H le _ htag] at hstep
  refine ⟨_, hstep, rfl, ?_, rfl, rfl, ?_⟩
  · simp [byteAt_writeBytes_zero, charValue]
  · intro hon count
    simp only [serverIterations, hon, if_true, hstep]

/-- Claim C14 (amended) at the start of a session with the constants of
`exampleHeaders`, the peer having closed the stream. -/
theorem attendToServer_peer_close_goes_on_witness :
    ∃ s1, serverIteration exampleHeaders true
          (ServerState.init exampleHeaders (List.replicate 48 0) 0 0
            [ReadOutcome.data [], ReadOutcome.data []]) = some s1
      ∧ s1.shouldContinueGame = true
      ∧ s1.events = [] ++ [Event.unknownChar 0]
      ∧ s1.ouchCount = 0
      ∧ s1.script = [ReadOutcome.data []]
      ∧ (true = true →
          ∀ count, serverIterations exampleHeaders true (count + 1)
              (ServerState.init exampleHeaders (List.replicate 48 0) 0 0
                [ReadOutcome.data [], ReadOutcome.data []])
            = serverIterations exampleHeaders true count s1) :=
  attendToServer_peer_close_goes_on exampleHeaders true
    (ServerState.init exampleHeaders (List.replicate 48 0) 0 0
      [ReadOutcome.data [], ReadOutcome.data []])
    [ReadOutcome.data []] (by decide) (by decide) rfl

/-- Claim C15: for every frame processed by one iteration of `attendToServer`
(the `case` labels being distinct): a Disconnect or Won tag clears the
liveness flag, and the loop then ends at its next test, whatever is left to
read; a Beep, WholeBoard, DefenderHit, InvaderKilled or Error tag, and a tag
that is no `case` label, leave the liveness flag unchanged; for a tag that is
no `case` label the iteration only adds the unknown-character warning to the
display. -/
theorem attendToServer_liveness_by_tag (H : Headers) (le : Bool) (s : ServerState)
    (ds : List (List Nat)) (rest : List ReadOutcome)
    (hpos : 0 < H.MAX_UPDATE_LEN) (hmax : H.MAX_UPDATE_LEN < 2147483648)
    (hupd : s.update.length = H.MAX_UPDATE_LEN) (hlabels : H.caseLabels.Nodup)
    (hne : ∀ d ∈ ds, d ≠ []) (hsum : ds.flatten.length = H.MAX_UPDATE_LEN)
    (hscript : s.script = ds.map ReadOutcome.data ++ rest) :
    ∃ s1, serverIteration H le s = some s1
      ∧ (byteAt ds.flatten 0 = H.DISCONNECT_UPDATE ∨ byteAt ds.flatten 0 = H.HAVE_WON_UPDATE →
          s1.shouldContinueGame = false
          ∧ ∀ fuel, attendToServer_loop H le fuel s1 = some s1)
      ∧ (byteAt ds.flatten 0 = H.BEEP_UPDATE ∨ byteAt ds.flatten 0 = H.BEGIN_WHOLE_BOARD_UPDATE
          ∨ byteAt ds.flatten 0 = H.DEFENDER_KILLED_UPDATE
          ∨ byteAt ds.flatten 0 = H.INVADER_KILLED_UPDATE
          ∨ byteAt ds.flatten 0 = H.ERROR_UPDATE ∨ byteAt ds.flatten 0 ∉ H.caseLabels →
          s1.shouldContinueGame = s.shouldContinueGame)
      ∧ (byteAt ds.flatten 0 ∉ H.caseLabels →
          s1 = { s with
            update := ds.flatten
            script := rest
            events := s.events ++ [Event.unknownChar (charValue (byteAt ds.flatten 0))] }) := by
  refine ⟨_, serverIteration_frame H le s ds rest hpos hmax hupd hne hsum hscript, ?_, ?_, ?_⟩
  · intro htag
    have hoff : (doUpdate H le { s with update := ds.flatten, script := rest }).shouldContinueGame
        = false := by
      rcases htag with htag | htag
      · rw [doUpdate_disconnect H le _ hlabels htag]
      · rw [doUpdate_won H le _ hlabels htag]
    exact ⟨hoff, fun fuel => attendToServer_loop_ended H le fuel _ hoff⟩
  · intro htag
    have hl := hlabels
    simp only [Headers.caseLabels, List.nodup_cons, List.mem_cons, List.mem_singleton,
      not_or, List.not_mem_nil, not_false_eq_true, List.nodup_nil, and_true] at hl
    have hmem : byteAt ds.flatten 0 ∉ H.caseLabels →
        byteAt ds.flatten 0 ≠ H.DISCONNECT_UPDATE ∧ byteAt ds.flatten 0 ≠ H.HAVE_WON_UPDATE := by
      intro h
      simp only [Headers.caseLabels, List.mem_cons, List.mem_singleton, not_or,
        List.not_mem_nil, not_false_eq_true, and_true] at h
      exact ⟨h.2.1, h.2.2.2.2.1⟩
    have hboth : byteAt ds.flatten 0 ≠ H.DISCONNECT_UPDATE
        ∧ byteAt ds.flatten 0 ≠ H.HAVE_WON_UPDATE := by
      obtain ⟨⟨a1, a2, a3, a4, a5, a6, a7⟩, ⟨b2, b3, b4, b5, b6, b7⟩, ⟨c3, c4, c5, c6, c7⟩,
        ⟨d4, d5, d6, d7⟩, ⟨e5, e6, e7⟩, ⟨f6, f7⟩, g7⟩ := hl
      rcases htag with h | h | h | h | h | h
      · rw [h]; exact ⟨Ne.symm b2, c4⟩
      · rw [h]; exact ⟨Ne.symm b3, d4⟩
      · rw [h]; exact ⟨Ne.symm b5, Ne.symm e5⟩
      · rw [h]; exact ⟨Ne.symm b6, Ne.symm e6⟩
      · rw [h]; exact ⟨Ne.symm b7, Ne.symm e7⟩
      · exact hmem h
    exact doUpdate_shouldContinueGame H le _ hboth.1 hboth.2
  · intro htag
    exact doUpdate_unrecognized H le { s with update := ds.flatten, script := rest } htag

/-- Claim C15 at the start of a session with the constants of
`exampleHeaders`: a Disconnect frame clears the liveness flag and the loop
ends although a Beep frame is still to be read. -/
theorem attendToServer_liveness_by_tag_witness :
    ∃ s1, serverIteration exampleHeaders true
          (ServerState.init exampleHeaders (List.replicate 48 0) 0 0
            ([exampleFrame 68].map ReadOutcome.data ++ [ReadOutcome.data (exampleFrame 66)]))
          = some s1
      ∧ s1.shouldContinueGame = false
      ∧ ∀ fuel, attendToServer_loop exampleHeaders true fuel s1 = some s1 :=
  match attendToServer_liveness_by_tag exampleHeaders true
      (ServerState.init exampleHeaders (List.replicate 48 0) 0 0
        ([exampleFrame 68].map ReadOutcome.data ++ [ReadOutcome.data (exampleFrame 66)]))
      [exampleFrame 68] [ReadOutcome.data (exampleFrame 66)]
      (by decide) (by decide) (by decide) (by decide) (by decide) (by decide) rfl with
  | ⟨s1, h, hterm, _, _⟩ => ⟨s1, h, hterm (Or.inl (by decide))⟩

/-! ## `attendToServer`: the hit counter -/

theorem serverIteration_update_length (H : Headers) (le : Bool) (s s1 : ServerState)
    (hpos : 0 < H.MAX_UPDATE_LEN) (h : serverIteration H le s = some s1)
    (hupd : s.update.length = H.MAX_UPDATE_LEN) :
    s1.update.length = H.MAX_UPDATE_LEN := by
  unfold serverIteration at h
  cases hr : rio_read s.script (writeBytes s.update 0 [0]) H.MAX_UPDATE_LEN s.errno with
  | none => simp [hr] at h
  | some r =>
      have hlen0 : (writeBytes s.update 0 [0]).length = s.update.length :=
        length_writeBytes_eq _ _ _ (by simp; omega)
      have hlen : r.buf.length = H.MAX_UPDATE_LEN := by
        have := rio_loop_buf_length H.MAX_UPDATE_LEN s.script H.MAX_UPDATE_LEN 0
          (writeBytes s.update 0 [0]) s.errno [] r hr (by omega)
        omega
      simp only [hr] at h
      split_ifs at h
      · cases h
        exact hlen
      · cases h
        rw [doUpdate_update]
        exact hlen

theorem Processed.update_length {H : Headers} {le : Bool} {s0 s : ServerState}
    {frames : List (List Nat)} (hpos : 0 < H.MAX_UPDATE_LEN)
    (h0 : s0.update.length = H.MAX_UPDATE_LEN) (h : Processed H le s0 frames s) :
    s.update.length = H.MAX_UPDATE_LEN := by
  induction h with
  | start => exact h0
  | @frame frames s s1 ds rest _ _ _ _ _ hstep ih =>
      exact serverIteration_update_length H le s s1 hpos hstep ih

theorem hitCount_append_singleton (H : Headers) (frames : List (List Nat)) (f : List Nat) :
    hitCount H (frames ++ [f])
      = hitCount H frames + if byteAt f 0 = H.DEFENDER_KILLED_UPDATE then 1 else 0 := by
  simp only [hitCount, List.countP_append, List.countP_cons, List.countP_nil, Nat.zero_add,
    decide_eq_true_eq]

theorem toInt32_succ (c : Nat) (h : c + 1 < 2147483648) :
    toInt32 ((c : Int) + 1) = (c : Int) + 1 := by
  unfold toInt32
  omega

theorem serverIteration_ouchCount (H : Headers) (le : Bool) (s : ServerState)
    (ds : List (List Nat)) (rest : List ReadOutcome) (c : Nat)
    (hpos : 0 < H.MAX_UPDATE_LEN) (hmax : H.MAX_UPDATE_LEN < 2147483648)
    (hlabels : H.caseLabels.Nodup) (hupd : s.update.length = H.MAX_UPDATE_LEN)
    (hc : s.ouchCount = (c : Int)) (hrange : c + 1 < 2147483648)
    (hscript : s.script = ds.map ReadOutcome.data ++ rest)
    (hne : ∀ d ∈ ds, d ≠ []) (hsum : ds.flatten.length = H.MAX_UPDATE_LEN) :
    ∃ s1, serverIteration H le s = some s1
      ∧ (byteAt ds.flatten 0 = H.DEFENDER_KILLED_UPDATE →
          s1.ouchCount = s.ouchCount + 1
          ∧ s1.events = s.events ++ [Event.ouchCount (s.ouchCount + 1)])
      ∧ (byteAt ds.flatten 0 ≠ H.DEFENDER_KILLED_UPDATE → s1.ouchCount = s.ouchCount) := by
  refine ⟨_, serverIteration_frame H le s ds rest hpos hmax hupd hne hsum hscript, ?_, ?_⟩
  · intro htag
    rw [doUpdate_defenderKilled H le _ hlabels htag]
    simp [hc, toInt32_succ c hrange]
  · intro htag
    exact doUpdate_ouchCount H le { s with update := ds.flatten, script := rest } htag

theorem Processed.ouchCount {H : Headers} {le : Bool} {s0 s : ServerState}
    {frames : List (List Nat)}
    (hpos : 0 < H.MAX_UPDATE_LEN) (hmax : H.MAX_UPDATE_LEN < 2147483648)
    (hlabels : H.caseLabels.Nodup) (h0 : s0.update.length = H.MAX_UPDATE_LEN)
    (hzero : s0.ouchCount = 0) (h : Processed H le s0 frames s) :
    hitCount H frames < 2147483648 → s.ouchCount = (hitCount H frames : Int) := by
  induction h with
  | start => intro _; simp [hitCount, hzero]
  | @frame frames s s1 ds rest hprev _ hscript hne hsum hstep ih =>
      intro hrange
      rw [hitCount_append_singleton] at hrange ⊢
      have hc := ih (by omega)
      have hupd := hprev.update_length hpos h0
      by_cases htag : byteAt ds.flatten 0 = H.DEFENDER_KILLED_UPDATE
      · rw [if_pos htag] at hrange ⊢
        obtain ⟨s2, h2, hhit, -⟩ := serverIteration_ouchCount H le s ds rest (hitCount H frames)
          hpos hmax hlabels hupd hc hrange hscript hne hsum
        rw [hstep] at h2
        cases h2
        rw [(hhit htag).1, hc]
        push_cast
        rfl
      · rw [if_neg htag]
        have hstep2 := serverIteration_frame H le s ds rest hpos hmax hupd hne hsum hscript
        rw [hstep] at hstep2
        cases hstep2
        rw [doUpdate_ouchCount H le _ htag]
        simpa using hc

/-- Claim C16: in a session of `attendToServer` (the `case` labels being
distinct) the hit counter `ouchCount` starts at 0; after the frames `frames`
have been processed it equals the number of DefenderHit frames among them, as
long as that number is within the range of `int`; after any prefix of them it
equals the number of DefenderHit frames of the prefix and is not larger than
at the end; and the next frame, when it is a DefenderHit frame, increments it
by exactly 1 and has "Ouch count" displayed with the already incremented
value, and otherwise leaves it unchanged. -/
theorem attendToServer_ouchCount (H : Headers) (le : Bool) (update : List Nat)
    (leftMostInvaderCol : Int) (errno : Nat) (script : List ReadOutcome)
    (frames : List (List Nat)) (s : ServerState)
    (hpos : 0 < H.MAX_UPDATE_LEN) (hmax : H.MAX_UPDATE_LEN < 2147483648)
    (hlabels : H.caseLabels.Nodup) (hlen : update.length = H.MAX_UPDATE_LEN)
    (hrun : Processed H le (ServerState.init H update leftMostInvaderCol errno script) frames s)
    (hrange : hitCount H frames + 1 < 2147483648) :
    (ServerState.init H update leftMostInvaderCol errno script).ouchCount = 0
    ∧ s.ouchCount = (hitCount H frames : Int)
    ∧ (∀ p sp, p <+: frames →
        Processed H le (ServerState.init H update leftMostInvaderCol errno script) p sp →
        sp.ouchCount = (hitCount H p : Int) ∧ sp.ouchCount ≤ s.ouchCount)
    ∧ (∀ (ds : List (List Nat)) (rest : List ReadOutcome),
        s.script = ds.map ReadOutcome.data ++ rest → (∀ d ∈ ds, d ≠ []) →
        ds.flatten.length = H.MAX_UPDATE_LEN →
        ∃ s1, serverIteration H le s = some s1
          ∧ (byteAt ds.flatten 0 = H.DEFENDER_KILLED_UPDATE →
              s1.ouchCount = s.ouchCount + 1
              ∧ s1.events = s.events ++ [Event.ouchCount (s.ouchCount + 1)])
          ∧ (byteAt ds.flatten 0 ≠ H.DEFENDER_KILLED_UPDATE → s1.ouchCount = s.ouchCount)) := by
  have hend : s.ouchCount = (hitCount H frames : Int) :=
    hrun.ouchCount hpos hmax hlabels hlen rfl (by omega)
  refine ⟨rfl, hend, ?_, ?_⟩
  · intro p sp hp hproc
    have hle : hitCount H p ≤ hitCount H frames := hp.sublist.countP_le _
    have hsp : sp.ouchCount = (hitCount H p : Int) :=
      hproc.ouchCount hpos hmax hlabels hlen rfl (by omega)
    refine ⟨hsp, ?_⟩
    rw [hsp, hend]
    exact_mod_cast hle
  · intro ds rest hscript hne hsum
    exact serverIteration_ouchCount H le s ds rest (hitCount H frames) hpos hmax hlabels
      (hrun.update_length hpos hlen) hend hrange hscript hne hsum

/-- A session with the constants of `exampleHeaders` in which a DefenderHit
frame and then a Beep frame have been processed. -/
theorem processed_example :
    Processed exampleHeaders true
      (ServerState.init exampleHeaders (List.replicate 48 0) 0 0
        [ReadOutcome.data (exampleFrame 75), ReadOutcome.data (exampleFrame 66)])
      [exampleFrame 75, exampleFrame 66]
      ⟨true, 0, exampleFrame 66, 1, 8, 0, 0, [Event.ouchCount 1, Event.beep], []⟩ :=
  Processed.frame (s := ⟨true, 0, exampleFrame 75, 1, 8, 0, 0, [Event.ouchCount 1],
      [ReadOutcome.data (exampleFrame 66)]⟩) [exampleFrame 66] []
    (Processed.frame [exampleFrame 75] [ReadOutcome.data (exampleFrame 66)] Processed.start
      rfl rfl (by decide) (by decide) (by decide))
    rfl rfl (by decide) (by decide) (by decide)

/-- Claim C16 on a session with the constants of `exampleHeaders` in which a
DefenderHit frame and a Beep frame have been processed: the counter is 1. -/
theorem attendToServer_ouchCount_witness :
    (⟨true, 0, exampleFrame 66, 1, 8, 0, 0, [Event.ouchCount 1, Event.beep], []⟩ :
        ServerState).ouchCount
      = (hitCount exampleHeaders [exampleFrame 75, exampleFrame 66] : Int) :=
  (attendToServer_ouchCount exampleHeaders true (List.replicate 48 0) 0 0
    [ReadOutcome.data (exampleFrame 75), ReadOutcome.data (exampleFrame 66)]
    [exampleFrame 75, exampleFrame 66] _
    (by decide) (by decide) (by decide) (by decide) processed_example (by decide)).2.1

/-! ## `handleWholeBoard`: decoding -/

theorem ntohl_load32 (le : Bool) (buf : List Nat) (off : Nat) :
    ntohl le (load32 le buf off) = be32 buf off := by
  have h0 : byteAt buf off < 256 := Nat.mod_lt _ (by decide)
  have h1 : byteAt buf (off + 1) < 256 := Nat.mod_lt _ (by decide)
  have h2 : byteAt buf (off + 2) < 256 := Nat.mod_lt _ (by decide)
  have h3 : byteAt buf (off + 3) < 256 := Nat.mod_lt _ (by decide)
  unfold be32
  cases le
  · simp only [ntohl, load32, Bool.false_eq_true, if_false]
    omega
  · simp only [ntohl, load32, if_true]
    generalize byteAt buf off = a at h0 ⊢
    generalize byteAt buf (off + 1) = b at h1 ⊢
    generalize byteAt buf (off + 2) = c at h2 ⊢
    generalize byteAt buf (off + 3) = d at h3 ⊢
    unfold bswap32
    omega

theorem ntohs_load16_be16 (le : Bool) (buf : List Nat) (off : Nat) :
    ntohs le (load16 le buf off) = be16 buf off :=
  ntohs_load16 le buf off

theorem be32_lt (buf : List Nat) (off : Nat) : be32 buf off < 4294967296 := by
  have h0 : byteAt buf off < 256 := Nat.mod_lt _ (by decide)
  have h1 : byteAt buf (off + 1) < 256 := Nat.mod_lt _ (by decide)
  have h2 : byteAt buf (off + 2) < 256 := Nat.mod_lt _ (by decide)
  have h3 : byteAt buf (off + 3) < 256 := Nat.mod_lt _ (by decide)
  unfold be32
  omega

theorem and_bit_ne_zero_iff (m f : Nat) (hm : m < 4294967296) :
    m &&& (2 ^ f % 4294967296) ≠ 0 ↔ m.testBit f = true := by
  by_cases hf : f < 32
  · have hlt : 2 ^ f < 4294967296 := by
      have : 2 ^ f < 2 ^ 32 := Nat.pow_lt_pow_right (by decide) hf
      simpa using this
    rw [Nat.mod_eq_of_lt hlt, Nat.and_two_pow]
    cases h : m.testBit f <;> simp
  · have hdvd : 2 ^ f % 4294967296 = 0 := by
      have : (2 : Nat) ^ 32 ∣ 2 ^ f := Nat.pow_dvd_pow 2 (by omega)
      exact Nat.mod_eq_zero_of_dvd (by simpa using this)
    have hfalse : m.testBit f = false := by
      apply Nat.testBit_eq_false_of_lt
      have : (2 : Nat) ^ 32 ≤ 2 ^ f := Nat.pow_le_pow_right (by decide) (by omega)
      have h32 : (2 : Nat) ^ 32 = 4294967296 := by norm_num
      omega
    simp [hdvd, hfalse]

theorem next_bit_position (f : Nat) :
    2 ^ f % 4294967296 * 2 % 4294967296 = 2 ^ (f + 1) % 4294967296 := by
  rw [Nat.pow_succ, Nat.mul_mod (2 ^ f) 2, Nat.mul_mod (2 ^ f % 4294967296) 2]

/-! ## `handleWholeBoard`: the live invaders -/

theorem liveInvaderPositions_append (a b : List Event) :
    liveInvaderPositions (a ++ b) = liveInvaderPositions a ++ liveInvaderPositions b := by
  simp [liveInvaderPositions, List.filterMap_append]

theorem liveInvaderPositions_drawInvaderBullets (H : Headers) (le : Bool) (update : List Nat) :
    ∀ (count bufferCursor : Nat),
      liveInvaderPositions (drawInvaderBullets H le update count bufferCursor) = [] := by
  intro count
  induction count with
  | zero => intro c; rfl
  | succ k ih =>
      intro c
      simp only [drawInvaderBullets, liveInvaderPositions_append, ih, List.append_nil]
      split_ifs <;> rfl

theorem drawRank_mem (H : Headers) (m r : Nat) (bottom left : Int) (interval : Nat)
    (hm : m < 4294967296) (p : Int × Int) :
    ∀ (count f0 : Nat),
      p ∈ liveInvaderPositions
          (drawRank H m r bottom left interval count f0 (2 ^ f0 % 4294967296))
        ↔ ∃ f, f0 ≤ f ∧ f < f0 + count ∧ m.testBit f = true
            ∧ p = invaderPosition H r f bottom left := by
  intro count
  induction count with
  | zero =>
      intro f0
      simp only [drawRank, liveInvaderPositions, List.filterMap_nil, List.not_mem_nil, false_iff]
      rintro ⟨f, h1, h2, -⟩
      omega
  | succ k ih =>
      intro f0
      rw [drawRank, liveInvaderPositions_append, List.mem_append, next_bit_position, ih (f0 + 1)]
      constructor
      · rintro (h | ⟨f, h1, h2, h3, h4⟩)
        · by_cases hbit : m &&& (2 ^ f0 % 4294967296) ≠ 0
          · rw [if_pos hbit] at h
            simp only [liveInvaderPositions, List.filterMap_cons, List.filterMap_nil,
              List.mem_singleton] at h
            exact ⟨f0, le_refl _, by omega, (and_bit_ne_zero_iff m f0 hm).mp hbit, h⟩
          · rw [if_neg hbit] at h
            simp [liveInvaderPositions] at h
        · exact ⟨f, by omega, by omega, h3, h4⟩
      · rintro ⟨f, h1, h2, h3, h4⟩
        rcases Nat.eq_or_lt_of_le h1 with heq | hlt
        · subst heq
          left
          rw [if_pos ((and_bit_ne_zero_iff m f0 hm).mpr h3)]
          simp only [liveInvaderPositions, List.filterMap_cons, List.filterMap_nil,
            List.mem_singleton]
          exact h4
        · right
          exact ⟨f, by omega, by omega, h3, h4⟩

theorem drawRanks_mem (H : Headers) (le : Bool) (update : List Nat) (bottom left : Int)
    (interval : Nat) (p : Int × Int) :
    ∀ (count r0 cursor : Nat),
      p ∈ liveInvaderPositions (drawRanks H le update bottom left interval count r0 cursor)
        ↔ ∃ r f, r0 ≤ r ∧ r < r0 + count ∧ f < H.NUM_INVADERS_PER_RANK
            ∧ (be32 update (cursor + 4 * (r - r0))).testBit f = true
            ∧ p = invaderPosition H r f bottom left := by
  intro count
  induction count with
  | zero =>
      intro r0 cursor
      simp only [drawRanks, liveInvaderPositions, List.filterMap_nil, List.not_mem_nil,
        false_iff]
      rintro ⟨r, f, h1, h2, -⟩
      omega
  | succ k ih =>
      intro r0 cursor
      have hrank := drawRank_mem H (be32 update cursor) r0 bottom left interval
        (be32_lt update cursor) p H.NUM_INVADERS_PER_RANK 0
      simp only [pow_zero, Nat.one_mod, Nat.zero_add, Nat.zero_le, true_and] at hrank
      rw [drawRanks, liveInvaderPositions_append, List.mem_append, ntohl_load32, hrank,
        ih (r0 + 1) (cursor + SIZE32)]
      constructor
      · rintro (⟨f, h2, h3, h4⟩ | ⟨r, f, h1, h2, h3, h4, h5⟩)
        · exact ⟨r0, f, le_refl _, by omega, h2, by simpa using h3, h4⟩
        · refine ⟨r, f, by omega, by omega, h3, ?_, h5⟩
          have hoff : cursor + SIZE32 + 4 * (r - (r0 + 1)) = cursor + 4 * (r - r0) := by
            simp only [SIZE32]
            omega
          rw [← hoff]
          exact h4
      · rintro ⟨r, f, h1, h2, h3, h4, h5⟩
        rcases Nat.eq_or_lt_of_le h1 with heq | hlt
        · subst heq
          left
          exact ⟨f, h3, by simpa using h4, h5⟩
        · right
          refine ⟨r, f, by omega, by omega, h3, ?_, h5⟩
          have hoff : cursor + SIZE32 + 4 * (r - (r0 + 1)) = cursor + 4 * (r - r0) := by
            simp only [SIZE32]
            omega
          rw [hoff]
          exact h4

theorem liveInvaderPositions_handleWholeBoard (H : Headers) (le : Bool) (update : List Nat)
    (ouchCount : Int) (interval : Nat) :
    liveInvaderPositions (handleWholeBoard H le update ouchCount interval).events
      = liveInvaderPositions (drawRanks H le update (toShort (be16 update 2))
          (toShort (be16 update 4)) (interval + 1) H.NUM_INVADER_RANKS 0 6) := by
  simp only [handleWholeBoard, liveInvaderPositions_append,
    liveInvaderPositions_drawInvaderBullets, ntohs_load16, SIZE16, be16]
  have h1 : liveInvaderPositions [Event.clearMain] = [] := rfl
  have h2 : ∀ n, liveInvaderPositions [Event.ouchCount n, Event.refreshMain] = [] :=
    fun _ => rfl
  rw [h1, h2]
  simp only [List.nil_append, List.append_nil]
  split_ifs <;> simp [liveInvaderPositions]

theorem drawRank_zero_mask (H : Headers) (r : Nat) (bottom left : Int) (interval : Nat) :
    ∀ (count f cur : Nat), drawRank H 0 r bottom left interval count f cur = [] := by
  intro count
  induction count with
  | zero => intro f cur; rfl
  | succ k ih => intro f cur; simp [drawRank, ih]

theorem drawRank_one_even (H : Headers) (r : Nat) (bottom left : Int) (interval : Nat) :
    ∀ (count f cur : Nat), cur % 2 = 0 →
      drawRank H 1 r bottom left interval count f cur = [] := by
  intro count
  induction count with
  | zero => intro f cur _; rfl
  | succ k ih =>
      intro f cur hcur
      have hnext : cur * 2 % 4294967296 % 2 = 0 := by omega
      simp [drawRank, ih _ _ hnext, Nat.one_and_eq_mod_two, hcur]

theorem drawRanks_zero_masks (H : Headers) (le : Bool) (update : List Nat) (bottom left : Int)
    (interval : Nat) :
    ∀ (count r0 cursor : Nat),
      (∀ r, r0 ≤ r → r < r0 + count → be32 update (cursor + 4 * (r - r0)) = 0) →
      drawRanks H le update bottom left interval count r0 cursor = [] := by
  intro count
  induction count with
  | zero => intro r0 cursor _; rfl
  | succ k ih =>
      intro r0 cursor hz
      have h0 : be32 update cursor = 0 := by simpa using hz r0 (le_refl _) (by omega)
      have hrest : drawRanks H le update bottom left interval k (r0 + 1) (cursor + SIZE32)
          = [] := by
        apply ih
        intro r h1 h2
        have hoff : cursor + SIZE32 + 4 * (r - (r0 + 1)) = cursor + 4 * (r - r0) := by
          simp only [SIZE32]
          omega
        rw [hoff]
        exact hz r (by omega) (by omega)
      simp [drawRanks, ntohl_load32, h0, drawRank_zero_mask, hrest]

/-! ## `handleWholeBoard`: the claims -/

/-- Claim C8: for every WholeBoard frame, `handleWholeBoard` stores the decoded
bottommost row and leftmost column (the big-endian 16-bit fields at byte
offsets 2 and 4), and the positions at which it draws a live invader are
exactly the positions computed from rank `r`, file `f` and these two decoded
values for those `r < NUM_INVADER_RANKS` and `f < NUM_INVADERS_PER_RANK` where
bit `f` (bit 0 the least significant) of the big-endian 32-bit mask at byte
offset `6 + 4 * r` is set.  In particular a frame with bottommost row 20,
leftmost column 5, rank-0 mask 1 and every other mask 0 makes it draw exactly
one live invader, at the position for rank 0, file 0. -/
theorem handleWholeBoard_live_invaders (H : Headers) (le : Bool) (update : List Nat)
    (ouchCount : Int) (interval : Nat) :
    ((handleWholeBoard H le update ouchCount interval).bottommostInvaderRankRow
        = toShort (be16 update 2)
      ∧ (handleWholeBoard H le update ouchCount interval).leftMostInvaderCol
        = toShort (be16 update 4))
    ∧ (∀ p, p ∈ liveInvaderPositions (handleWholeBoard H le update ouchCount interval).events
        ↔ ∃ r f, r < H.NUM_INVADER_RANKS ∧ f < H.NUM_INVADERS_PER_RANK
            ∧ (be32 update (6 + 4 * r)).testBit f = true
            ∧ p = invaderPosition H r f (toShort (be16 update 2)) (toShort (be16 update 4)))
    ∧ (0 < H.NUM_INVADER_RANKS → 0 < H.NUM_INVADERS_PER_RANK →
        be16 update 2 = 20 → be16 update 4 = 5 → be32 update 6 = 1 →
        (∀ r, 0 < r → r < H.NUM_INVADER_RANKS → be32 update (6 + 4 * r) = 0) →
        liveInvaderPositions (handleWholeBoard H le update ouchCount interval).events
          = [invaderPosition H 0 0 20 5]) := by
  refine ⟨⟨?_, ?_⟩, ?_, ?_⟩
  · simp [handleWholeBoard, ntohs_load16, be16, SIZE16]
  · simp [handleWholeBoard, ntohs_load16, be16, SIZE16]
  · intro p
    rw [liveInvaderPositions_handleWholeBoard, drawRanks_mem]
    constructor
    · rintro ⟨r, f, -, h2, h3, h4, h5⟩
      exact ⟨r, f, by omega, h3, by simpa using h4, h5⟩
    · rintro ⟨r, f, h2, h3, h4, h5⟩
      exact ⟨r, f, Nat.zero_le _, by omega, h3, by simpa using h4, h5⟩
  · intro hr hf hb hl hm hz
    rw [liveInvaderPositions_handleWholeBoard, hb, hl]
    obtain ⟨k, hk⟩ : ∃ k, H.NUM_INVADER_RANKS = k + 1 := ⟨H.NUM_INVADER_RANKS - 1, by omega⟩
    obtain ⟨j, hj⟩ : ∃ j, H.NUM_INVADERS_PER_RANK = j + 1 :=
      ⟨H.NUM_INVADERS_PER_RANK - 1, by omega⟩
    have hrest : drawRanks H le update (toShort ((20 : Nat) : Int)) (toShort ((5 : Nat) : Int))
        (interval + 1) k 1 (6 + SIZE32) = [] := by
      apply drawRanks_zero_masks
      intro r h1 h2
      have hoff : 6 + SIZE32 + 4 * (r - 1) = 6 + 4 * r := by
        simp only [SIZE32]
        omega
      rw [hoff]
      exact hz r (by omega) (by omega)
    rw [hk, drawRanks, ntohl_load32, hm, hj, drawRank, hrest,
      drawRank_one_even H 0 _ _ _ j 1 (1 * 2 % 4294967296) (by decide)]
    have h20 : toShort 20 = 20 := by decide
    have h5 : toShort 5 = 5 := by decide
    simp [liveInvaderPositions, invaderPosition, h20, h5]

/-- Claim C8 on the frame `exampleWholeBoard` with the constants of
`exampleHeaders`: exactly one live invader is drawn. -/
theorem handleWholeBoard_live_invaders_witness :
    liveInvaderPositions (handleWholeBoard exampleHeaders true exampleWholeBoard 0 0).events
      = [invaderPosition exampleHeaders 0 0 20 5] :=
  (handleWholeBoard_live_invaders exampleHeaders true exampleWholeBoard 0 0).2.2
    (by decide) (by decide) (by decide) (by decide) (by decide)
    (by
      intro r h1 h2
      have hr : r = 1 := by
        have : r < 2 := h2
        omega
      subst hr
      decide)

/-! ## `handleWholeBoard`: the defender bullet -/

theorem defenderBulletPositions_append (a b : List Event) :
    defenderBulletPositions (a ++ b)
      = defenderBulletPositions a ++ defenderBulletPositions b := by
  simp [defenderBulletPositions, List.filterMap_append]

theorem defenderBulletPositions_drawRank (H : Headers) (m r : Nat) (bottom left : Int)
    (interval : Nat) :
    ∀ (count f cur : Nat),
      defenderBulletPositions (drawRank H m r bottom left interval count f cur) = [] := by
  intro count
  induction count with
  | zero => intro f cur; rfl
  | succ k ih =>
      intro f cur
      simp only [drawRank, defenderBulletPositions_append, ih, List.append_nil]
      split_ifs <;> rfl

theorem defenderBulletPositions_drawRanks (H : Headers) (le : Bool) (update : List Nat)
    (bottom left : Int) (interval : Nat) :
    ∀ (count r cursor : Nat),
      defenderBulletPositions (drawRanks H le update bottom left interval count r cursor)
        = [] := by
  intro count
  induction count with
  | zero => intro r cursor; rfl
  | succ k ih =>
      intro r cursor
      simp only [drawRanks, defenderBulletPositions_append, ih,
        defenderBulletPositions_drawRank, List.append_nil]

theorem defenderBulletPositions_drawInvaderBullets (H : Headers) (le : Bool)
    (update : List Nat) :
    ∀ (count bufferCursor : Nat),
      defenderBulletPositions (drawInvaderBullets H le update count bufferCursor) = [] := by
  intro count
  induction count with
  | zero => intro c; rfl
  | succ k ih =>
      intro c
      simp only [drawInvaderBullets, defenderBulletPositions_append, ih, List.append_nil]
      split_ifs <;> rfl

theorem defenderBulletPositions_handleWholeBoard (H : Headers) (le : Bool) (update : List Nat)
    (ouchCount : Int) (interval : Nat) :
    defenderBulletPositions (handleWholeBoard H le update ouchCount interval).events
      = if toShort (be16 update
              (6 + 4 * H.NUM_INVADER_RANKS + 4 * H.MAX_NUM_INVADER_BULLETS + 2)) ≠ H.ILLEGAL_ROW
            ∧ toShort (be16 update
              (6 + 4 * H.NUM_INVADER_RANKS + 4 * H.MAX_NUM_INVADER_BULLETS + 4)) ≠ H.ILLEGAL_COL
        then [(toShort (be16 update
              (6 + 4 * H.NUM_INVADER_RANKS + 4 * H.MAX_NUM_INVADER_BULLETS + 2)),
            toShort (be16 update
              (6 + 4 * H.NUM_INVADER_RANKS + 4 * H.MAX_NUM_INVADER_BULLETS + 4)))]
        else [] := by
  have hrow : 3 * SIZE16 + H.NUM_INVADER_RANKS * SIZE32
      + H.MAX_NUM_INVADER_BULLETS * (SIZE16 + SIZE16) + SIZE16
      = 6 + 4 * H.NUM_INVADER_RANKS + 4 * H.MAX_NUM_INVADER_BULLETS + 2 := by
    simp only [SIZE16, SIZE32]
    omega
  have hcol : 3 * SIZE16 + H.NUM_INVADER_RANKS * SIZE32
      + H.MAX_NUM_INVADER_BULLETS * (SIZE16 + SIZE16) + SIZE16 + SIZE16
      = 6 + 4 * H.NUM_INVADER_RANKS + 4 * H.MAX_NUM_INVADER_BULLETS + 4 := by
    simp only [SIZE16, SIZE32]
    omega
  have h1 : defenderBulletPositions [Event.clearMain] = [] := rfl
  have h2 : ∀ n, defenderBulletPositions [Event.ouchCount n, Event.refreshMain] = [] :=
    fun _ => rfl
  simp only [handleWholeBoard, defenderBulletPositions_append,
    defenderBulletPositions_drawInvaderBullets, defenderBulletPositions_drawRanks,
    ntohs_load16_be16, hrow, hcol, h1, h2, List.nil_append, List.append_nil]
  split_ifs <;> simp_all [defenderBulletPositions]

/-- Claim C9 fails on the code.  On the frame `exampleWholeBoard` (defender
columns 30 and 31 at byte offsets 22 and 24, the bullet of defender 0 at row
10, column 33 at byte offsets 26 and 28) `handleWholeBoard` draws the defender
bullet at row 31, column 10: the row is the column field of defender 1, the
column is the row field of the bullet, and the bullet's column field is never
read.  In general, the defender bullet is drawn from the two 16-bit fields
that follow the first defender column, the first of which is the second
defender column of the documented layout. -/
theorem handleWholeBoard_defender_bullet_fields :
    ((∀ le, (handleWholeBoard exampleHeaders le exampleWholeBoard 0 0).events
        = [Event.clearMain, Event.liveInvader 19 5 1, Event.defender 22 30,
            Event.defenderBullet 31 10, Event.ouchCount 0, Event.refreshMain])
      ∧ be16 exampleWholeBoard 22 = 30 ∧ be16 exampleWholeBoard 24 = 31
      ∧ be16 exampleWholeBoard 26 = 10 ∧ be16 exampleWholeBoard 28 = 33)
    ∧ ∀ (H : Headers) (le : Bool) (update : List Nat) (ouchCount : Int) (interval : Nat),
        defenderBulletPositions (handleWholeBoard H le update ouchCount interval).events
          = if toShort (be16 update
                (6 + 4 * H.NUM_INVADER_RANKS + 4 * H.MAX_NUM_INVADER_BULLETS + 2))
                  ≠ H.ILLEGAL_ROW
              ∧ toShort (be16 update
                (6 + 4 * H.NUM_INVADER_RANKS + 4 * H.MAX_NUM_INVADER_BULLETS + 4))
                  ≠ H.ILLEGAL_COL
            then [(toShort (be16 update
                  (6 + 4 * H.NUM_INVADER_RANKS + 4 * H.MAX_NUM_INVADER_BULLETS + 2)),
                toShort (be16 update
                  (6 + 4 * H.NUM_INVADER_RANKS + 4 * H.MAX_NUM_INVADER_BULLETS + 4)))]
            else [] := by
  refine ⟨⟨by decide, by decide, by decide, by decide, by decide⟩, ?_⟩
  intro H le update ouchCount interval
  exact defenderBulletPositions_handleWholeBoard H le update ouchCount interval

/-! ## `didParse`: characters and `strtol` -/

theorem cString_eq_self (s : List Char) (h : NUL ∉ s) : cString s = s := by
  unfold cString
  rw [List.takeWhile_eq_self_iff]
  intro c hc
  simpa using fun heq : c = NUL => h (heq ▸ hc)

theorem isspace_eq_false_of_isdigit (c : Char) (h : isdigit c = true) : isspace c = false := by
  cases hs : isspace c with
  | false => rfl
  | true =>
      simp only [isspace, Bool.decide_or, Bool.or_eq_true, decide_eq_true_eq] at hs
      rcases hs with rfl | rfl | rfl | rfl | rfl | rfl <;> revert h <;> decide

theorem ne_of_isdigit (c : Char) (h : isdigit c = true) :
    c ≠ '-' ∧ c ≠ '+' ∧ c ≠ NUL ∧ c ≠ ':' := by
  refine ⟨?_, ?_, ?_, ?_⟩ <;> rintro rfl <;> revert h <;> decide

theorem strtolDigits_of_digits :
    ∀ (d : List Char) (acc : Nat), (∀ c ∈ d, isdigit c = true) →
      strtolDigits d acc = (d.foldl (fun a c => a * 10 + (c.toNat - '0'.toNat)) acc, []) := by
  intro d
  induction d with
  | nil => intro acc _; rfl
  | cons c cs ih =>
      intro acc h
      have hc : isdigit c = true := h c (List.mem_cons_self _ _)
      simp only [strtolDigits, hc, if_true, List.foldl_cons]
      exact ih _ (fun x hx => h x (List.mem_cons_of_mem _ hx))

theorem strtol_of_digits (d : List Char) (hd : d ≠ []) (hdig : ∀ c ∈ d, isdigit c = true) :
    strtol d = (max LONG_MIN (min LONG_MAX (decimalValue d : Int)), []) := by
  obtain ⟨c, cs, rfl⟩ := List.exists_cons_of_ne_nil hd
  have hc : isdigit c = true := hdig c (List.mem_cons_self _ _)
  obtain ⟨hm, hp, -, -⟩ := ne_of_isdigit c hc
  have hdrop : (c :: cs).dropWhile isspace = c :: cs := by
    simp [List.dropWhile, isspace_eq_false_of_isdigit c hc]
  simp only [strtol, hdrop, List.head?_cons, Option.some.injEq, hm, hp, or_self, if_false, hc,
    if_true, strtolDigits_of_digits (c :: cs) 0 hdig, decimalValue, decide_False,
    Bool.false_eq_true]

theorem strchr_append (h t : List Char) (c : Char) (hc : c ∉ h) :
    strchr (h ++ c :: t) c = some h.length := by
  induction h with
  | nil => simp [strchr]
  | cons x xs ih =>
      have hx : x ≠ c := fun heq => hc (heq ▸ List.mem_cons_self _ _)
      have hxs : c ∉ xs := fun hmem => hc (List.mem_cons_of_mem _ hmem)
      simp [strchr, hx, ih hxs]

theorem clamp_port (v : Nat) (h : v < 2147483648) :
    toInt32 (max LONG_MIN (min LONG_MAX (v : Int))) = (v : Int) := by
  have h1 : min LONG_MAX (v : Int) = (v : Int) := by
    apply min_eq_right
    unfold LONG_MAX
    omega
  have h2 : max LONG_MIN (v : Int) = (v : Int) := by
    apply max_eq_right
    unfold LONG_MIN
    omega
  rw [h1, h2]
  unfold toInt32
  omega

/-! ## `didParse`: the claims -/

/-- Claim C10: for every input `h ++ ":" ++ d` where `h` is a non-empty C string
(no NUL) without `':'` that does not begin with white space and has fewer than
`C_STRING_MAX` characters, and `d` is a non-empty string of decimal digits
whose value is within the range of `int`, `didParse` returns `true` with
`hostName = h` and `portNumber` the decimal value of `d`. -/
theorem didParse_host_and_port (H : Headers) (self : ServerCommInfo) (h d : List Char)
    (hh : h ≠ []) (hsep : ':' ∉ h) (hnul : NUL ∉ h)
    (hws : ∀ c ∈ h.head?, isspace c = false) (hlen : h.length < H.C_STRING_MAX)
    (hd : d ≠ []) (hdig : ∀ c ∈ d, isdigit c = true) (hrange : decimalValue d < 2147483648) :
    ServerCommInfo.didParse H self (some (h ++ ':' :: d))
      = (true, { self with hostName := h, portNumber := (decimalValue d : Int) }) := by
  obtain ⟨c, t, rfl⟩ := List.exists_cons_of_ne_nil hh
  obtain ⟨c0, cs, rfl⟩ := List.exists_cons_of_ne_nil hd
  have hc0 : isdigit c0 = true := hdig c0 (List.mem_cons_self _ _)
  have hcs : isspace c = false := hws c rfl
  have hnul2 : NUL ∉ (c :: t) ++ ':' :: c0 :: cs := by
    intro hmem
    rcases List.mem_append.mp hmem with hm | hm
    · exact hnul hm
    · rcases List.mem_cons.mp hm with hm | hm
      · exact absurd hm (by decide)
      · exact (ne_of_isdigit NUL (hdig NUL hm)).2.2.1 rfl
  have hdrop : ((c :: t) ++ ':' :: c0 :: cs).dropWhile isspace = c :: (t ++ ':' :: c0 :: cs) := by
    simp [List.dropWhile, hcs]
  have hchr : strchr (c :: (t ++ ':' :: c0 :: cs)) ':' = some (t.length + 1) := by
    have := strchr_append (c :: t) (c0 :: cs) ':' hsep
    simpa using this
  have hn : (if t.length + 1 < H.C_STRING_MAX - 1 then t.length + 1 else H.C_STRING_MAX - 1)
      = t.length + 1 := by
    simp only [List.length_cons] at hlen
    split_ifs <;> omega
  have htake : (c :: (t ++ ':' :: c0 :: cs)).take (t.length + 1) = c :: t := by
    simp
  have hdropd : (c :: (t ++ ':' :: c0 :: cs)).drop (t.length + 1 + 1) = c0 :: cs := by
    simp
  simp only [ServerCommInfo.didParse, cString_eq_self _ hnul2, hdrop, hchr, hn, copyHostName,
    htake, hdropd]
  simp [hc0, strtol_of_digits (c0 :: cs) (by simp) hdig, clamp_port _ hrange, extraneous]

/-- Claim C10 on the input "10.0.0.5:9000": host 10.0.0.5, port 9000. -/
theorem didParse_host_and_port_witness :
    ServerCommInfo.didParse exampleHeaders ServerCommInfo.new
        (some ("10.0.0.5".toList ++ ':' :: "9000".toList))
      = (true, { ServerCommInfo.new with
          hostName := "10.0.0.5".toList, portNumber := ((9000 : Nat) : Int) }) :=
  didParse_host_and_port exampleHeaders ServerCommInfo.new "10.0.0.5".toList "9000".toList
    (by decide) (by decide) (by decide)
    (by
      intro c hc
      have hc1 : c = '1' := by simpa using hc.symm
      subst hc1
      decide)
    (by decide) (by decide) (by decide) (by decide)

/-! ## `didParse`: inputs without a separator -/

theorem strchr_eq_none (s : List Char) (c : Char) (h : c ∉ s) : strchr s c = none := by
  induction s with
  | nil => rfl
  | cons x xs ih =>
      have hx : x ≠ c := fun heq => h (heq ▸ List.mem_cons_self _ _)
      have hxs : c ∉ xs := fun hmem => h (List.mem_cons_of_mem _ hmem)
      simp [strchr, hx, ih hxs]

theorem strchr_ne_none (s : List Char) (c : Char) (h : c ∈ s) : strchr s c ≠ none := by
  induction s with
  | nil => simp at h
  | cons x xs ih =>
      by_cases hx : x = c
      · simp [strchr, hx]
      · have hxs : c ∈ xs := by
          rcases List.mem_cons.mp h with heq | hmem
          · exact absurd heq.symm hx
          · exact hmem
        simp [strchr, hx, ih hxs]

theorem not_mem_of_digits (d : List Char) (hdig : ∀ c ∈ d, isdigit c = true) :
    NUL ∉ d ∧ ':' ∉ d ∧ '.' ∉ d := by
  refine ⟨?_, ?_, ?_⟩ <;> intro hmem <;> have h := hdig _ hmem <;> revert h <;> decide

/-- Claim C11: for every non-empty input that consists only of decimal digits
and whose value is within the range of `int`, `didParse` returns `true` with
`hostName` the default host `INITIAL_HOST` and `portNumber` the decimal value
of the input; `INITIAL_HOST` is a C string of fewer than `C_STRING_MAX`
characters. -/
theorem didParse_port_only (H : Headers) (self : ServerCommInfo) (d : List Char)
    (hd : d ≠ []) (hdig : ∀ c ∈ d, isdigit c = true) (hrange : decimalValue d < 2147483648)
    (hhost : NUL ∉ H.INITIAL_HOST) (hhostLen : H.INITIAL_HOST.length < H.C_STRING_MAX) :
    ServerCommInfo.didParse H self (some d)
      = (true, { self with hostName := H.INITIAL_HOST, portNumber := (decimalValue d : Int) }) := by
  obtain ⟨hn, hc, hp⟩ := not_mem_of_digits d hdig
  obtain ⟨c0, cs, rfl⟩ := List.exists_cons_of_ne_nil hd
  have hc0 : isdigit c0 = true := hdig c0 (List.mem_cons_self _ _)
  have hdrop : (c0 :: cs).dropWhile isspace = c0 :: cs := by
    simp [List.dropWhile, isspace_eq_false_of_isdigit c0 hc0]
  have htake : H.INITIAL_HOST.take (H.C_STRING_MAX - 1) = H.INITIAL_HOST :=
    List.take_of_length_le (by omega)
  simp only [ServerCommInfo.didParse, cString_eq_self _ hn, cString_eq_self _ hhost, hdrop,
    strchr_eq_none _ _ hc, strchr_eq_none _ _ hp, copyHostName, htake, hc0, if_true]
  simp [strtol_of_digits (c0 :: cs) (by simp) hdig, clamp_port _ hrange, extraneous]

/-- Claim C11 on the input "9000" with the constants of `exampleHeaders`:
default host, port 9000. -/
theorem didParse_port_only_witness :
    ServerCommInfo.didParse exampleHeaders ServerCommInfo.new (some "9000".toList)
      = (true, { ServerCommInfo.new with
          hostName := exampleHeaders.INITIAL_HOST, portNumber := ((9000 : Nat) : Int) }) :=
  didParse_port_only exampleHeaders ServerCommInfo.new "9000".toList
    (by decide) (by decide) (by decide) (by decide) (by decide)

/-- Claim C12: for every non-empty input (a C string) with no `':'` and fewer
than `C_STRING_MAX` characters whose first character is neither white space
nor a digit, or whose first character is a digit and which contains a `'.'`,
`didParse` returns `true` with `hostName` the whole input and `portNumber` the
default port `INITIAL_PORT`. -/
theorem didParse_host_only (H : Headers) (self : ServerCommInfo) (s : List Char)
    (hs : s ≠ []) (hsep : ':' ∉ s) (hnul : NUL ∉ s) (hlen : s.length < H.C_STRING_MAX)
    (hfirst : ∀ c ∈ s.head?,
      (isspace c = false ∧ isdigit c = false) ∨ (isdigit c = true ∧ '.' ∈ s)) :
    ServerCommInfo.didParse H self (some s)
      = (true, { self with hostName := s, portNumber := H.INITIAL_PORT }) := by
  obtain ⟨c, t, rfl⟩ := List.exists_cons_of_ne_nil hs
  have htake : (c :: t).take (H.C_STRING_MAX - 1) = c :: t :=
    List.take_of_length_le (by omega)
  rcases hfirst c rfl with ⟨hsp, hdg⟩ | ⟨hdg, hdot⟩
  · have hdrop : (c :: t).dropWhile isspace = c :: t := by simp [List.dropWhile, hsp]
    simp only [ServerCommInfo.didParse, cString_eq_self _ hnul, hdrop,
      strchr_eq_none _ _ hsep, copyHostName, htake, hdg, Bool.false_eq_true, if_false]
  · have hdrop : (c :: t).dropWhile isspace = c :: t := by
      simp [List.dropWhile, isspace_eq_false_of_isdigit c hdg]
    simp only [ServerCommInfo.didParse, cString_eq_self _ hnul, hdrop,
      strchr_eq_none _ _ hsep, copyHostName, htake, hdg, if_true,
      strchr_ne_none _ _ hdot, if_false]

/-- Claim C12 on the input "127.0.0.1" with the constants of `exampleHeaders`:
host 127.0.0.1, default port. -/
theorem didParse_host_only_witness :
    ServerCommInfo.didParse exampleHeaders ServerCommInfo.new (some "127.0.0.1".toList)
      = (true, { ServerCommInfo.new with
          hostName := "127.0.0.1".toList, portNumber := exampleHeaders.INITIAL_PORT }) :=
  didParse_host_only exampleHeaders ServerCommInfo.new "127.0.0.1".toList
    (by decide) (by decide) (by decide) (by decide)
    (by
      intro c hc
      have hc1 : c = '1' := by simpa using hc.symm
      subst hc1
      exact Or.inr ⟨by decide, by decide⟩)

/-! ## `didParse`: inputs with a separator -/

theorem strtolDigits_snd : ∀ (s : List Char) (acc : Nat),
    (strtolDigits s acc).2 = s.dropWhile isdigit := by
  intro s
  induction s with
  | nil => intro acc; rfl
  | cons c cs ih =>
      intro acc
      by_cases hc : isdigit c = true
      · simp only [strtolDigits, hc, if_true, List.dropWhile_cons_of_pos hc]
        exact ih _
      · simp [strtolDigits, hc, List.dropWhile]

theorem strtol_snd_of_digit (c : Char) (cs : List Char) (hc : isdigit c = true) :
    (strtol (c :: cs)).2 = (c :: cs).dropWhile isdigit := by
  obtain ⟨hm, hp, -, -⟩ := ne_of_isdigit c hc
  have hdrop : (c :: cs).dropWhile isspace = c :: cs := by
    simp [List.dropWhile, isspace_eq_false_of_isdigit c hc]
  simp only [strtol, hdrop, List.head?_cons, Option.some.injEq, hm, hp, or_self, if_false, hc,
    if_true, strtolDigits_snd]

theorem dropWhile_digits_append (digits rest : List Char)
    (hdig : ∀ c ∈ digits, isdigit c = true)
    (hrest : rest = [] ∨ ∃ c t, rest = c :: t ∧ isspace c = true) :
    (digits ++ rest).dropWhile isdigit = rest := by
  induction digits with
  | nil =>
      rcases hrest with rfl | ⟨c, t, rfl, hc⟩
      · rfl
      · have hnd : isdigit c = false := by
          cases hd : isdigit c with
          | false => rfl
          | true => rw [isspace_eq_false_of_isdigit c hd] at hc; cases hc
        simp [List.dropWhile, hnd]
  | cons d ds ih =>
      have hd : isdigit d = true := hdig d (List.mem_cons_self _ _)
      rw [List.cons_append, List.dropWhile_cons_of_pos hd]
      exact ih (fun c hc => hdig c (List.mem_cons_of_mem _ hc))

theorem didParse_separator_result (H : Headers) (self : ServerCommInfo)
    (chars host tail : List Char)
    (hurl : (cString chars).dropWhile isspace = host ++ ':' :: tail) (hhost : ':' ∉ host) :
    (ServerCommInfo.didParse H self (some chars)).1
      = (decide (host ≠ []) && tail.head?.any isdigit
          && !extraneous (tail.dropWhile isdigit)) := by
  cases host with
  | nil =>
      simp only [List.nil_append] at hurl
      simp [ServerCommInfo.didParse, hurl, strchr]
  | cons c t =>
      have hchr : strchr (c :: (t ++ ':' :: tail)) ':' = some (t.length + 1) := by
        have := strchr_append (c :: t) tail ':' hhost
        simpa using this
      have hdropd : (c :: (t ++ ':' :: tail)).drop (t.length + 1 + 1) = tail := by
        simp
      rw [List.cons_append] at hurl
      cases tail with
      | nil =>
          simp [ServerCommInfo.didParse, hurl, hchr]
      | cons c0 cs =>
          by_cases hc0 : isdigit c0 = true
          · simp only [ServerCommInfo.didParse, hurl, hchr, hdropd, hc0, Bool.not_true,
              Bool.false_eq_true, if_false, strtol_snd_of_digit c0 cs hc0]
            cases hext : extraneous ((c0 :: cs).dropWhile isdigit) <;> simp [hext, hc0]
          · simp [ServerCommInfo.didParse, hurl, hchr, hc0]

theorem extraneous_eq_false_iff (rest : List Char) :
    extraneous rest = false ↔ rest = [] ∨ ∃ c t, rest = c :: t ∧ isspace c = true := by
  cases rest with
  | nil => simp [extraneous]
  | cons c t => simp [extraneous]

/-- Claim C17: for every input that, after the leading white space is skipped,
contains `':'`, `didParse` returns `true` if and only if the part before the
first `':'` is not empty, the character right after that `':'` is a decimal
digit, and the run of digits after it is followed by the end of the string or
by a white-space character; `didParse` returns `false` for the NULL pointer
and for an input that is empty or consists only of white space. -/
theorem didParse_separator (H : Headers) (self : ServerCommInfo) (chars : List Char)
    (hsep : ':' ∈ (cString chars).dropWhile isspace) :
    ((ServerCommInfo.didParse H self (some chars)).1 = true
      ↔ ∃ host digits rest,
          (cString chars).dropWhile isspace = host ++ ':' :: (digits ++ rest)
          ∧ host ≠ [] ∧ ':' ∉ host
          ∧ digits ≠ [] ∧ (∀ c ∈ digits, isdigit c = true)
          ∧ (rest = [] ∨ ∃ c t, rest = c :: t ∧ isspace c = true))
    ∧ (ServerCommInfo.didParse H self none).1 = false
    ∧ ∀ blank : List Char, (∀ c ∈ cString blank, isspace c = true) →
        (ServerCommInfo.didParse H self (some blank)).1 = false := by
  refine ⟨?_, rfl, ?_⟩
  · obtain ⟨host, tail, hurl, hhost⟩ := List.eq_append_cons_of_mem hsep
    constructor
    · intro htrue
      rw [didParse_separator_result H self chars host tail hurl hhost] at htrue
      simp only [Bool.and_eq_true, decide_eq_true_eq, Bool.not_eq_true'] at htrue
      obtain ⟨⟨hne, hhead⟩, hext⟩ := htrue
      refine ⟨host, tail.takeWhile isdigit, tail.dropWhile isdigit, ?_, hne, hhost, ?_, ?_,
        (extraneous_eq_false_iff _).mp hext⟩
      · rw [hurl, List.takeWhile_append_dropWhile]
      · cases tail with
        | nil => simp at hhead
        | cons c0 cs =>
            have hc0 : isdigit c0 = true := by simpa using hhead
            simp [List.takeWhile_cons, hc0]
      · intro c hc
        exact List.mem_takeWhile_imp hc
    · rintro ⟨host2, digits, rest, hurl2, hne, hhost2, hdne, hdig, hrest⟩
      rw [didParse_separator_result H self chars host2 (digits ++ rest) hurl2 hhost2,
        dropWhile_digits_append digits rest hdig hrest]
      obtain ⟨d0, ds, rfl⟩ := List.exists_cons_of_ne_nil hdne
      have hd0 : isdigit d0 = true := hdig d0 (List.mem_cons_self _ _)
      simp [hne, hd0, (extraneous_eq_false_iff rest).mpr hrest]
  · intro blank hblank
    have hdrop : (cString blank).dropWhile isspace = [] :=
      List.dropWhile_eq_nil_iff.mpr hblank
    simp [ServerCommInfo.didParse, hdrop]

/-- Claim C17 on the input "  host:80 x": after the leading blanks the host
part is "host", the digits are "80" and a blank follows them. -/
theorem didParse_separator_witness :
    (ServerCommInfo.didParse exampleHeaders ServerCommInfo.new (some "  host:80 x".toList)).1
      = true :=
  ((didParse_separator exampleHeaders ServerCommInfo.new "  host:80 x".toList
      (by decide)).1).mpr
    ⟨"host".toList, "80".toList, " x".toList, by decide, by decide, by decide, by decide,
      by decide, Or.inr ⟨' ', "x".toList, rfl, by decide⟩⟩

end SpaceInvaders
